import Mathlib

/-!
Verification development for the dj-torrent BitTorrent engine.

Each C++ component the claims touch is shallowly embedded as executable
Lean definitions: machine integers become `Nat` (with explicit truncation
where overflow matters), byte buffers become `List Nat`, fallible
operations return `Option`, and stateful methods become functions from the
owning object to a pair of result and updated object.  The embedded
definitions follow the C++ sources statement by statement; comments note
the source file of each.
-/

namespace DJT

/-! ## Bitfield helpers (piece_manager.cpp / session.cpp anonymous namespace) -/

/-- Source bitfield_test: MSB-first bit test on a byte vector; out-of-range
bytes read as clear. -/
def bitfield_test (bf : List Nat) (idx : Nat) : Bool :=
  let byte := idx / 8
  let bit := 7 - idx % 8
  if bf.length ≤ byte then false
  else ((bf.getD byte 0).land (1 <<< bit)) != 0

/-- Source bitfield_set: MSB-first bit set; out-of-range index is a no-op. -/
def bitfield_set (bf : List Nat) (idx : Nat) : List Nat :=
  let byte := idx / 8
  let bit := 7 - idx % 8
  if bf.length ≤ byte then bf
  else bf.set byte ((bf.getD byte 0).lor (1 <<< bit))

/-- Source make_bitfield: ceil(pieces/8) zero bytes. -/
def make_bitfield (pieces : Nat) : List Nat :=
  List.replicate ((pieces + 7) / 8) 0

/-! ## SHA-1 (the OpenSSL `SHA1` routine used by PieceManager::handle_block),
embedded as the standard algorithm over byte lists, all words reduced
mod 2^32. -/

namespace SHA1

def w32 (n : Nat) : Nat := n % 4294967296

def rotl (s x : Nat) : Nat :=
  w32 ((x <<< s) % 4294967296 + x / (2 ^ (32 - s)))

/-- Message padding: 0x80, zeros to 56 mod 64, then the 64-bit big-endian
bit length. -/
def pad (msg : List Nat) : List Nat :=
  let len := msg.length
  let zeros := (119 - len % 64) % 64
  let bitlen := len * 8
  msg ++ [128] ++ List.replicate zeros 0 ++
    [w32 (bitlen / 2 ^ 56) % 256, bitlen / 2 ^ 48 % 256, bitlen / 2 ^ 40 % 256,
     bitlen / 2 ^ 32 % 256, bitlen / 2 ^ 24 % 256, bitlen / 2 ^ 16 % 256,
     bitlen / 2 ^ 8 % 256, bitlen % 256]

/-- Big-endian 32-bit words of a 64-byte chunk. -/
def toWords : List Nat → List Nat
  | a :: b :: c :: d :: rest => (((a * 256 + b) * 256 + c) * 256 + d) :: toWords rest
  | _ => []

/-- Message-schedule extension to 80 words. -/
def extend (ws : List Nat) : Nat → List Nat
  | 0 => ws
  | n + 1 =>
    let ws := ws ++ [rotl 1 ((((ws.getD (ws.length - 3) 0).xor
      (ws.getD (ws.length - 8) 0)).xor
      (ws.getD (ws.length - 14) 0)).xor
      (ws.getD (ws.length - 16) 0))]
    extend ws n

def f (t b c d : Nat) : Nat :=
  if t < 20 then (b.land c).lor ((4294967295 - b).land d)
  else if t < 40 then (b.xor c).xor d
  else if t < 60 then ((b.land c).lor (b.land d)).lor (c.land d)
  else (b.xor c).xor d

def k (t : Nat) : Nat :=
  if t < 20 then 1518500249
  else if t < 40 then 1859775393
  else if t < 60 then 2400959708
  else 3395469782

def rounds (ws : List Nat) (t : Nat) (a b c d e : Nat) : Nat × Nat × Nat × Nat × Nat :=
  match ws with
  | [] => (a, b, c, d, e)
  | w :: rest =>
    let tmp := w32 (rotl 5 a + f t b c d + e + k t + w)
    rounds rest (t + 1) tmp a (rotl 30 b) c d

def chunks (h0 h1 h2 h3 h4 : Nat) : List Nat → Nat → Nat × Nat × Nat × Nat × Nat
  | _, 0 => (h0, h1, h2, h3, h4)
  | bytes, fuel + 1 =>
    match bytes with
    | [] => (h0, h1, h2, h3, h4)
    | _ =>
      let chunk := bytes.take 64
      let ws := extend (toWords chunk) 64
      let (a, b, c, d, e) := rounds ws 0 h0 h1 h2 h3 h4
      chunks (w32 (h0 + a)) (w32 (h1 + b)) (w32 (h2 + c)) (w32 (h3 + d))
        (w32 (h4 + e)) (bytes.drop 64) fuel

def be4 (x : Nat) : List Nat :=
  [x / 2 ^ 24 % 256, x / 2 ^ 16 % 256, x / 2 ^ 8 % 256, x % 256]

end SHA1

/-- SHA-1 digest (20 bytes) of a byte list. -/
def sha1 (msg : List Nat) : List Nat :=
  let padded := SHA1.pad msg
  let (h0, h1, h2, h3, h4) :=
    SHA1.chunks 1732584193 4023233417 2562383102 271733878 3285377520
      padded (padded.length / 64)
  SHA1.be4 h0 ++ SHA1.be4 h1 ++ SHA1.be4 h2 ++ SHA1.be4 h3 ++ SHA1.be4 h4

/-! ## TorrentFile (torrent_file.h) — the fields PieceManager and Storage read.
Lengths are the C++ int64 values, which are non-negative for any parsed
torrent, so they are carried as `Nat`; `total_length` is the sum of file
lengths. -/

structure FileEntry where
  length : Nat
  deriving DecidableEq, Repr

structure TorrentFile where
  piece_length : Nat
  piece_hashes : List (List Nat)
  files : List FileEntry
  deriving DecidableEq, Repr

def TorrentFile.total_length (t : TorrentFile) : Nat :=
  (t.files.map FileEntry.length).sum

/-! ## BlockBitmap and PieceBuffer (piece_buffer.h) -/

/-- BlockBitmap state: packed MSB-first bits, total block count, and the
count of set bits maintained by `set`.  The C++ `set`/`test` throw
`out_of_range` for `idx ≥ total_`; every call site reaches them only with
in-range indices (proved where used), so the embedding makes the
out-of-range case a no-op / `false`. -/
structure BlockBitmap where
  bits_ : List Nat
  total_ : Nat
  have_ : Nat
  deriving DecidableEq, Repr

def BlockBitmap.init (blocks : Nat) : BlockBitmap :=
  ⟨List.replicate ((blocks + 7) / 8) 0, blocks, 0⟩

def BlockBitmap.test (bm : BlockBitmap) (idx : Nat) : Bool :=
  if bm.total_ ≤ idx then false
  else
    let byte := idx / 8
    let mask := (1 <<< (7 - idx % 8)) % 256
    ((bm.bits_.getD byte 0).land mask) != 0

def BlockBitmap.set (bm : BlockBitmap) (idx : Nat) : BlockBitmap :=
  if bm.total_ ≤ idx then bm
  else
    let byte := idx / 8
    let mask := (1 <<< (7 - idx % 8)) % 256
    if (bm.bits_.getD byte 0).land mask == 0 then
      ⟨bm.bits_.set byte ((bm.bits_.getD byte 0).lor mask), bm.total_, bm.have_ + 1⟩
    else bm

def BlockBitmap.full (bm : BlockBitmap) : Bool := bm.have_ == bm.total_

/-- PieceBuffer state (piece_buffer.h); `index_` is dropped as no claim
reads it back. -/
structure PieceBuffer where
  piece_length_ : Nat
  block_size_ : Nat
  data_ : List Nat
  blocks_ : Nat
  bitmap_ : BlockBitmap
  deriving DecidableEq, Repr

def PieceBuffer.init (piece_length block_size : Nat) : PieceBuffer :=
  let blocks := (piece_length + block_size - 1) / block_size
  ⟨piece_length, block_size, List.replicate piece_length 0, blocks,
    BlockBitmap.init blocks⟩

/-- std::copy of `src` into `dst` starting at `off` (callers guarantee
`off + src.length ≤ dst.length`). -/
def listCopyAt (dst : List Nat) (off : Nat) (src : List Nat) : List Nat :=
  dst.take off ++ src ++ dst.drop (off + src.length)

/-- PieceBuffer::write_block.  Returns ((accepted, complete_now), buffer
after the call). -/
def PieceBuffer.write_block (b : PieceBuffer) (offs : Nat) (src : List Nat) :
    (Bool × Bool) × PieceBuffer :=
  if b.piece_length_ < offs + src.length then ((false, false), b)
  else if src.length == 0 then ((false, false), b)
  else
    let block_idx := offs / b.block_size_
    let expected_len :=
      if block_idx == b.blocks_ - 1 then b.piece_length_ - block_idx * b.block_size_
      else b.block_size_
    if src.length != expected_len && offs + src.length != b.piece_length_ then
      ((false, false), b)
    else if b.bitmap_.test block_idx then ((false, false), b)
    else
      let data := listCopyAt b.data_ offs src
      let bm := b.bitmap_.set block_idx
      ((true, bm.full), { b with data_ := data, bitmap_ := bm })

/-! ## PieceManager (piece_manager.cpp) -/

structure PieceState where
  have_ : Bool
  requested : List Bool
  buffer : Option PieceBuffer
  blocks : Nat
  deriving DecidableEq, Repr, Inhabited

structure PieceManager where
  torrent_ : TorrentFile
  block_size_ : Nat
  pieces_ : List PieceState
  have_bitfield_ : List Nat
  next_piece_cursor_ : Nat
  deriving DecidableEq, Repr

namespace PieceManager

/-- PieceManager::piece_length_for: the last piece takes the tail of
total_length, all others the uniform piece_length. -/
def piece_length_for (t : TorrentFile) (piece_index : Nat) : Nat :=
  if piece_index + 1 == t.piece_hashes.length then
    t.total_length - t.piece_length * (t.piece_hashes.length - 1)
  else t.piece_length

/-- PieceManager constructor. -/
def init (t : TorrentFile) (block_size : Nat) : PieceManager :=
  let piece_count := t.piece_hashes.length
  let pieces := (List.range piece_count).map fun i =>
    let len := piece_length_for t i
    let blocks := (len + block_size - 1) / block_size
    PieceState.mk false (List.replicate blocks false) none blocks
  ⟨t, block_size, pieces, make_bitfield piece_count, 0⟩

def have_piece (pm : PieceManager) (piece_index : Nat) : Bool :=
  if pm.pieces_.length ≤ piece_index then false
  else (pm.pieces_.getD piece_index default).have_

def set_have (pm : PieceManager) (piece_index : Nat) : PieceManager :=
  { pm with
    pieces_ := pm.pieces_.set piece_index
      { pm.pieces_.getD piece_index default with have_ := true }
    have_bitfield_ := bitfield_set pm.have_bitfield_ piece_index }

def reset_piece (pm : PieceManager) (piece_index : Nat) : PieceManager :=
  if pm.pieces_.length ≤ piece_index then pm
  else
    let ps := pm.pieces_.getD piece_index default
    { pm with
      pieces_ := pm.pieces_.set piece_index
        { ps with buffer := none, requested := ps.requested.map fun _ => false } }

/-- PieceManager::handle_block.  Returns the C++ bool result and the manager
after the call (including the effect of `reset_piece` on hash failure and
`set_have` plus buffer release on success). -/
def handle_block (pm : PieceManager) (piece_index begin_ : Nat)
    (data : List Nat) : Bool × PieceManager :=
  if pm.pieces_.length ≤ piece_index then (false, pm)
  else if pm.have_piece piece_index then (false, pm)
  else
    let ps := pm.pieces_.getD piece_index default
    let buf := ps.buffer.getD
      (PieceBuffer.init (piece_length_for pm.torrent_ piece_index) pm.block_size_)
    let pm₁ := { pm with
      pieces_ := pm.pieces_.set piece_index { ps with buffer := some buf } }
    let res := buf.write_block begin_ data
    let accepted := res.1.1
    let complete_now := res.1.2
    let buf' := res.2
    let pm₂ := { pm₁ with
      pieces_ := pm₁.pieces_.set piece_index { ps with buffer := some buf' } }
    if !accepted then (false, pm₁)
    else if complete_now then
      if sha1 buf'.data_ == pm.torrent_.piece_hashes.getD piece_index [] then
        let pm₃ := pm₂.set_have piece_index
        (true, { pm₃ with
          pieces_ := pm₃.pieces_.set piece_index
            { pm₃.pieces_.getD piece_index default with buffer := none } })
      else (false, pm₂.reset_piece piece_index)
    else (true, pm₂)

/-- Request triple (PieceManager::Request). -/
structure Request where
  piece_index : Nat
  begin_ : Nat
  length : Nat
  deriving DecidableEq, Repr

/-- First block index `b < blocks` with `requested[b] = false` (the inner
loop of next_request_for_peer). -/
def firstUnrequested (requested : List Bool) : Option Nat :=
  requested.findIdx? (fun r => r == false)

/-- Outer loop over offsets 0..piece_count-1.  A candidate piece whose
blocks are all requested keeps its (possibly freshly allocated) buffer and
the scan continues, exactly as in the C++ loop. -/
def nextReqLoop (pm : PieceManager) (peer_bitfield : List Nat) :
    List Nat → Option Request × PieceManager
  | [] => (none, pm)
  | offs :: rest =>
    let idx := (pm.next_piece_cursor_ + offs) % pm.pieces_.length
    if pm.have_piece idx then nextReqLoop pm peer_bitfield rest
    else if !bitfield_test peer_bitfield idx then nextReqLoop pm peer_bitfield rest
    else
      let ps := pm.pieces_.getD idx default
      let buf := ps.buffer.getD
        (PieceBuffer.init (piece_length_for pm.torrent_ idx) pm.block_size_)
      let pm' := { pm with
        pieces_ := pm.pieces_.set idx { ps with buffer := some buf } }
      match firstUnrequested ps.requested with
      | none => nextReqLoop pm' peer_bitfield rest
      | some b =>
        let begin_ := b * pm'.block_size_
        let piece_len := piece_length_for pm'.torrent_ idx
        let remaining := piece_len - begin_
        let length := min remaining pm'.block_size_
        (some ⟨idx, begin_, length⟩,
          { pm' with
            pieces_ := pm'.pieces_.set idx
              { ps with buffer := some buf, requested := ps.requested.set b true }
            next_piece_cursor_ := (idx + 1) % pm'.pieces_.length })

/-- PieceManager::next_request_for_peer (the round-robin scan starting at
next_piece_cursor_). -/
def next_request_for_peer (pm : PieceManager) (peer_bitfield : List Nat) :
    Option Request × PieceManager :=
  nextReqLoop pm peer_bitfield (List.range pm.pieces_.length)

end PieceManager

/-- Peer availability of a piece: how many connected peers' bitfields mark
it (spec §4.3; maintained by the Session from Bitfield/Have events). -/
def peerAvailability (bitfields : List (List Nat)) (piece : Nat) : Nat :=
  (bitfields.filter fun bf => bitfield_test bf piece).length

/-! ## Storage (storage.h plus its implementation file)

Files are modelled by index: `FileHandle.fd` is the position of the file in
`files_`, and the disk is a `FS`, one byte list per file.  `pread`/`pwrite`
are positional: `pread` returns short (modelled as failure, exactly the
`n != span.length` branch) when fewer than the requested bytes exist at
the offset; `pwrite` on a regular file writes fully, extending the file
with zeros when the write starts past the end (POSIX holes read as
zeros). -/

structure SpanT where
  fd : Nat
  length : Nat
  offset : Int
  deriving DecidableEq, Repr

abbrev FS := List (List Nat)

def preadFS (fs : FS) (fd : Nat) (offset : Int) (len : Nat) : Option (List Nat) :=
  if offset < 0 then none
  else if offset.toNat + len ≤ (fs.getD fd []).length then
    some (((fs.getD fd []).drop offset.toNat).take len)
  else none

def pwriteFS (fs : FS) (fd : Nat) (offset : Int) (bytes : List Nat) : FS :=
  let o := offset.toNat
  let file := fs.getD fd []
  let padded := file ++ List.replicate (o - file.length) 0
  fs.set fd (padded.take o ++ bytes ++ padded.drop (o + bytes.length))

structure FileHandle where
  fd : Nat
  length : Nat
  deriving DecidableEq, Repr

structure Storage where
  torrent_ : TorrentFile
  files_ : List FileHandle
  piece_spans_ : List (List SpanT)
  deriving DecidableEq, Repr

namespace Storage

/-- Inner while-loop of Storage::build_piece_spans, fuelled: each step
either consumes `remaining` or advances `file_idx`, so
`remaining + files.length` steps always suffice. -/
def spanLoop (files : List FileHandle) :
    Nat → Nat → Nat → Nat → (List SpanT × Nat × Nat)
  | 0, _, file_idx, file_offset => ([], file_idx, file_offset)
  | fuel + 1, remaining, file_idx, file_offset =>
    if _h : remaining = 0 ∨ files.length ≤ file_idx then ([], file_idx, file_offset)
    else
      let fh := files.getD file_idx ⟨0, 0⟩
      let available := fh.length - file_offset
      let take := min available remaining
      let span := SpanT.mk fh.fd take (Int.ofNat file_offset)
      let file_offset' := file_offset + take
      let (file_idx', file_offset'') :=
        if fh.length ≤ file_offset' then (file_idx + 1, 0) else (file_idx, file_offset')
      let (rest, fi, fo) :=
        spanLoop files fuel (remaining - take) file_idx' file_offset''
      (span :: rest, fi, fo)

/-- Outer loop of Storage::build_piece_spans over the pieces, fuelled by
the piece count (structural, so the kernel evaluates it). -/
def buildLoop (t : TorrentFile) (files : List FileHandle) :
    Nat → Nat → Nat → Nat → List (List SpanT)
  | 0, _, _, _ => []
  | fuel + 1, piece, file_idx, file_offset =>
    if t.piece_hashes.length ≤ piece then []
    else
      let remaining :=
        if piece + 1 == t.piece_hashes.length then
          t.total_length - piece * t.piece_length
        else t.piece_length
      let (spans, fi, fo) :=
        spanLoop files (remaining + files.length + 1) remaining file_idx file_offset
      spans :: buildLoop t files fuel (piece + 1) fi fo

/-- Storage::open_files metadata: an empty file list degenerates to a
single file of the total length. -/
def filesMeta (t : TorrentFile) : List FileEntry :=
  if t.files.isEmpty then [⟨t.total_length⟩] else t.files

/-- Storage constructor state: open every file (fd = its index) and
precompute the per-piece spans. -/
def init (t : TorrentFile) : Storage :=
  let files := (filesMeta t).enum.map fun e => FileHandle.mk e.1 e.2.length
  ⟨t, files, buildLoop t files t.piece_hashes.length 0 0 0⟩

/-- The skip/take loop of Storage::spans_for. -/
def sliceSpans : List SpanT → Nat → Nat → List SpanT
  | [], _, _ => []
  | span :: rest, skip, remaining =>
    if remaining == 0 then []
    else if span.length ≤ skip then sliceSpans rest (skip - span.length) remaining
    else
      SpanT.mk span.fd (min remaining (span.length - skip))
          (span.offset + (skip : Int)) ::
        sliceSpans rest 0 (remaining - min remaining (span.length - skip))

/-- Storage::spans_for: skip `begin` bytes of the piece's span list, take
`length`. -/
def spans_for (st : Storage) (piece_index begin_ length : Nat) : List SpanT :=
  if st.piece_spans_.length ≤ piece_index then []
  else sliceSpans (st.piece_spans_.getD piece_index []) begin_ length

/-- The read loop of Storage::read_block: one positional read per span,
failing on the first short read, concatenating otherwise. -/
def readSpanBytes (fs : FS) : List SpanT → Option (List Nat)
  | [] => some []
  | span :: rest =>
    match preadFS fs span.fd span.offset span.length with
    | none => none
    | some bytes =>
      match readSpanBytes fs rest with
      | none => none
      | some more => some (bytes ++ more)

/-- Storage::read_block: bound checks (piece range, zero length, logical
piece length), then one positional read per sub-span concatenated into the
pre-sized output vector (the vector keeps trailing zeros where the span
list provides fewer than `length` bytes). -/
def read_block (st : Storage) (fs : FS) (piece_index begin_ length : Nat) :
    Option (List Nat) :=
  if st.piece_spans_.length ≤ piece_index then none
  else if length == 0 then none
  -- the C++ inlines the last-piece computation here; it is exactly
  -- PieceManager::piece_length_for
  else if PieceManager.piece_length_for st.torrent_ piece_index <
      begin_ + length then none
  else
    match readSpanBytes fs (st.spans_for piece_index begin_ length) with
    | none => none
    | some bytes => some (bytes ++ List.replicate (length - bytes.length) 0)

/-- The write loop of Storage::write_piece, with the source's guards on
negative offsets, zero-length spans and data exhaustion; a mid-loop
failure keeps the writes already performed. -/
def writeSpans (data : List Nat) : FS → Nat → List SpanT → Bool × FS
  | fs, written, [] => (written == data.length, fs)
  | fs, written, span :: rest =>
    if span.offset < 0 || span.length == 0 then (false, fs)
    else if data.length < written + span.length then (false, fs)
    else
      let chunk := (data.drop written).take span.length
      writeSpans data (pwriteFS fs span.fd span.offset chunk) (written + span.length) rest

/-- Storage::write_piece: one positional write per span of the piece. -/
def write_piece (st : Storage) (fs : FS) (piece_index : Nat) (data : List Nat) :
    Bool × FS :=
  if st.piece_spans_.length ≤ piece_index then (false, fs)
  else writeSpans data fs 0 (st.piece_spans_.getD piece_index [])

end Storage

/-! ## Bencode codec (bencode.cpp / bencode.h)

Byte strings are `List Nat`; parse failures (C++ exceptions) are `none`.
The C++ `int64` literal parse can overflow and throw; payloads in scope
keep integers far below 2^63, where the `Int` model coincides. -/

namespace bencode

inductive Value where
  | vint (i : Int)
  | vstr (s : List Nat)
  | vlist (l : List Value)
  | vdict (d : List (List Nat × Value))

def isDigit (c : Nat) : Bool := 48 ≤ c && c ≤ 57

/-- Decimal value of a digit run. -/
def digitsVal (ds : List Nat) : Nat :=
  ds.foldl (fun acc d => acc * 10 + (d - 48)) 0

/-- Advance past a maximal digit run (the while-isdigit loops). -/
def scanDigits (input : List Nat) : Nat → Nat → Nat
  | 0, pos => pos
  | fuel + 1, pos =>
    if pos < input.length && isDigit (input.getD pos 0) then
      scanDigits input fuel (pos + 1)
    else pos

/-- Parser::parse_string: digit run, ':', then that many raw bytes. -/
def parseStr (input : List Nat) (pos : Nat) : Option (List Nat × Nat) :=
  let len_start := pos
  let pos := scanDigits input input.length pos
  if pos == len_start then none
  else if input.getD pos 0 != 58 || input.length ≤ pos then none
  else
    let len := digitsVal ((input.drop len_start).take (pos - len_start))
    let pos := pos + 1
    if input.length < pos + len then none
    else some ((input.drop pos).take len, pos + len)

/-- Parser::parse_int: 'i', optional '-', digits, 'e'. -/
def parseInt (input : List Nat) (pos : Nat) : Option (Int × Nat) :=
  if input.getD pos 0 != 105 || input.length ≤ pos then none
  else
    let pos := pos + 1
    let (neg, pos) :=
      if input.getD pos 0 == 45 && pos < input.length then (true, pos + 1)
      else (false, pos)
    if !(pos < input.length && isDigit (input.getD pos 0)) then none
    else
      let dend := scanDigits input input.length pos
      if input.getD dend 0 != 101 || input.length ≤ dend then none
      else
        let v : Int := Int.ofNat (digitsVal ((input.drop pos).take (dend - pos)))
        some (if neg then -v else v, dend + 1)

/-- std::map::emplace: keeps the existing entry on duplicate keys. -/
def emplace (d : List (List Nat × Value)) (k : List Nat) (v : Value) :
    List (List Nat × Value) :=
  if d.any (fun e => e.1 == k) then d else d ++ [(k, v)]

mutual

/-- Parser::parse_value: dispatch on the leading byte. -/
def parseValue (input : List Nat) : Nat → Nat → Option (Value × Nat)
  | 0, _ => none
  | fuel + 1, pos =>
    if input.length ≤ pos then none
    else
      let c := input.getD pos 0
      if c == 105 then (parseInt input pos).map fun r => (.vint r.1, r.2)
      else if c == 108 then
        match parseItems input fuel (pos + 1) [] with
        | some (items, pos') => some (.vlist items, pos')
        | none => none
      else if c == 100 then
        match parsePairs input fuel (pos + 1) [] with
        | some (d, pos') => some (.vdict d, pos')
        | none => none
      else if isDigit c then (parseStr input pos).map fun r => (.vstr r.1, r.2)
      else none

/-- Parser::parse_list body: values until 'e'. -/
def parseItems (input : List Nat) : Nat → Nat → List Value →
    Option (List Value × Nat)
  | 0, _, _ => none
  | fuel + 1, pos, acc =>
    if input.length ≤ pos then none
    else if input.getD pos 0 == 101 then some (acc, pos + 1)
    else
      match parseValue input fuel pos with
      | none => none
      | some (v, pos') => parseItems input fuel pos' (acc ++ [v])

/-- Parser::parse_dict body: string key then value until 'e'. -/
def parsePairs (input : List Nat) : Nat → Nat → List (List Nat × Value) →
    Option (List (List Nat × Value) × Nat)
  | 0, _, _ => none
  | fuel + 1, pos, acc =>
    if input.length ≤ pos then none
    else if input.getD pos 0 == 101 then some (acc, pos + 1)
    else
      match parseStr input pos with
      | none => none
      | some (k, pos') =>
        match parseValue input fuel pos' with
        | none => none
        | some (v, pos'') => parsePairs input fuel pos'' (emplace acc k v)

end

/-- Parser::parse: whole-input value, trailing bytes rejected.  The C++
recursion is unbounded; here every recursive call ticks the fuel, and a
count of five times the input length strictly dominates the number of
calls (each parsed value consumes at least one byte, and each value
accounts for at most one parseValue plus two list/dict body calls). -/
def parse (input : List Nat) : Option Value :=
  match parseValue input (5 * input.length + 5) 0 with
  | some (v, pos) => if pos == input.length then some v else none
  | none => none

def as_int : Value → Option Int
  | .vint i => some i
  | _ => none

def as_string : Value → Option (List Nat)
  | .vstr s => some s
  | _ => none

def as_dict : Value → Option (List (List Nat × Value))
  | .vdict d => some d
  | _ => none

def find_field (d : List (List Nat × Value)) (k : List Nat) : Option Value :=
  (d.find? (fun e => e.1 == k)).map fun e => e.2

end bencode

/-! ## Peer wire state machine (http_client.cpp, class Peer) -/

inductive PState where
  | Connecting
  | Handshaking
  | Active
  | Closed
  deriving DecidableEq, Repr

inductive EventType where
  | Handshake
  | KeepAlive
  | Choke
  | Unchoke
  | Interested
  | NotInterested
  | Have
  | Bitfield
  | Request
  | Piece
  | Cancel
  | ExtendedHandshake
  | Pex
  deriving DecidableEq, Repr

/-- Peer::Event with its five data fields. -/
structure Event where
  type : EventType
  peer_id : List Nat
  payload : List Nat
  piece_index : Nat
  begin_ : Nat
  length : Nat
  deriving DecidableEq, Repr

/-- Peer connection state.  The socket fd is left out: closing it is
subsumed by `state_ := Closed`.  Outbound frames are kept whole with the
partial-send offset into the head frame, as in the C++ deque. -/
structure Peer where
  state_ : PState
  info_hash_ : List Nat
  self_peer_id_ : List Nat
  remote_peer_id_ : List Nat
  handshake_received_ : Bool
  handshake_sent_ : Bool
  incoming_ : List Nat
  outgoing_ : List (List Nat)
  outgoing_offset_ : Nat
  events_ : List Event
  remote_ut_pex_id_ : Nat
  deriving DecidableEq, Repr

namespace Peer

/-- Peer::close: drop the socket, go Closed, clear both byte buffers. -/
def close (p : Peer) : Peer :=
  { p with state_ := .Closed, outgoing_ := [], incoming_ := [] }

/-- Peer::handle_error: logs and closes. -/
def handle_error (p : Peer) : Peer := p.close

/-- ASCII bytes of the literal "BitTorrent protocol". -/
def pstrBytes : List Nat :=
  [66, 105, 116, 84, 111, 114, 114, 101, 110, 116, 32,
   112, 114, 111, 116, 111, 99, 111, 108]

/-- Peer::parse_handshake.  Returns the C++ bool and the peer after the
call.  Note the source never compares the received peer id with
self_peer_id_. -/
def parse_handshake (p : Peer) : Bool × Peer :=
  if p.incoming_.length < 68 then (false, p)
  else if p.incoming_.getD 0 0 != 19 then (false, p.close)
  else if (p.incoming_.drop 1).take 19 ≠ pstrBytes then (false, p.close)
  else if (p.incoming_.drop 28).take 20 ≠ p.info_hash_ then (false, p.close)
  else
    let peer_id := (p.incoming_.drop 48).take 20
    let p := { p with
      remote_peer_id_ := peer_id
      events_ := p.events_ ++ [⟨.Handshake, peer_id, [], 0, 0, 0⟩]
      incoming_ := p.incoming_.drop 68
      handshake_received_ := true }
    let p := if p.state_ == .Connecting then { p with state_ := .Handshaking } else p
    let p := if p.state_ == .Handshaking then { p with state_ := .Active } else p
    (true, p)

/-- read_be32 on the first four bytes. -/
def read_be32 (l : List Nat) : Nat :=
  ((l.getD 0 0) <<< 24) + ((l.getD 1 0) <<< 16) + ((l.getD 2 0) <<< 8) + l.getD 3 0

/-- Body of one iteration of Peer::parse_messages for a complete message of
id `msg_id` and payload `payload`: which event, if any, it appends, and the
updated ut_pex id.  Mirrors the switch statement. -/
def messageEvent (p : Peer) (msg_id : Nat) (payload : List Nat) :
    List Event × Nat :=
  let payload_len := payload.length
  if msg_id == 0 then ([⟨.Choke, [], [], 0, 0, 0⟩], p.remote_ut_pex_id_)
  else if msg_id == 1 then ([⟨.Unchoke, [], [], 0, 0, 0⟩], p.remote_ut_pex_id_)
  else if msg_id == 2 then ([⟨.Interested, [], [], 0, 0, 0⟩], p.remote_ut_pex_id_)
  else if msg_id == 3 then ([⟨.NotInterested, [], [], 0, 0, 0⟩], p.remote_ut_pex_id_)
  else if msg_id == 4 then
    (if payload_len == 4 then [⟨.Have, [], [], read_be32 payload, 0, 0⟩] else [],
     p.remote_ut_pex_id_)
  else if msg_id == 5 then
    ([⟨.Bitfield, [], payload, 0, 0, payload_len⟩], p.remote_ut_pex_id_)
  else if msg_id == 6 then
    (if payload_len == 12 then
       [⟨.Request, [], [], read_be32 payload, read_be32 (payload.drop 4),
         read_be32 (payload.drop 8)⟩]
     else [], p.remote_ut_pex_id_)
  else if msg_id == 7 then
    (if 8 ≤ payload_len then
       [⟨.Piece, [], payload.drop 8, read_be32 payload, read_be32 (payload.drop 4),
         payload_len - 8⟩]
     else [], p.remote_ut_pex_id_)
  else if msg_id == 8 then
    (if payload_len == 12 then
       [⟨.Cancel, [], [], read_be32 payload, read_be32 (payload.drop 4),
         read_be32 (payload.drop 8)⟩]
     else [], p.remote_ut_pex_id_)
  else if msg_id == 20 then
    if 1 ≤ payload_len then
      let ext_id := payload.getD 0 0
      let ext_payload := payload.drop 1
      if ext_id == 0 then
        -- parse m.ut_pex from the bencoded body; any failure is swallowed
        let pex_id :=
          match bencode.parse ext_payload with
          | none => p.remote_ut_pex_id_
          | some v =>
            match bencode.as_dict v with
            | none => p.remote_ut_pex_id_
            | some dict =>
              match bencode.find_field dict [109] with
              | none => p.remote_ut_pex_id_
              | some mval =>
                match bencode.as_dict mval with
                | none => p.remote_ut_pex_id_
                | some md =>
                  match bencode.find_field md [117, 116, 95, 112, 101, 120] with
                  | none => p.remote_ut_pex_id_
                  | some uv =>
                    match bencode.as_int uv with
                    | none => p.remote_ut_pex_id_
                    | some i =>
                      if 0 < i ∧ i < 256 then i.toNat else p.remote_ut_pex_id_
        ([⟨.ExtendedHandshake, [], ext_payload, 0, 0, 0⟩], pex_id)
      else if ext_id == p.remote_ut_pex_id_ && p.remote_ut_pex_id_ != 0 then
        ([⟨.Pex, [], ext_payload, 0, 0, 0⟩], p.remote_ut_pex_id_)
      else ([], p.remote_ut_pex_id_)
    else ([], p.remote_ut_pex_id_)
  else ([], p.remote_ut_pex_id_)

/-- Peer::parse_messages, fuelled by the buffer length: every loop
iteration consumes at least 4 bytes, so `incoming_.length` iterations
always suffice.  The loop exits once fewer than 4 bytes remain or the
framed message is incomplete.  Crucially, no branch of the loop ever calls
close() or touches state_. -/
def parseMessagesFuel : Nat → Peer → Peer
  | 0, p => p
  | fuel + 1, p =>
    if p.incoming_.length < 4 then p
    else if read_be32 p.incoming_ == 0 then
      parseMessagesFuel fuel
        { p with
          events_ := p.events_ ++ [⟨.KeepAlive, [], [], 0, 0, 0⟩]
          incoming_ := p.incoming_.drop 4 }
    else if p.incoming_.length < 4 + read_be32 p.incoming_ then p
    else
      parseMessagesFuel fuel
        { p with
          events_ := p.events_ ++
            (messageEvent p (p.incoming_.getD 4 0)
              ((p.incoming_.drop 5).take (read_be32 p.incoming_ - 1))).1
          remote_ut_pex_id_ :=
            (messageEvent p (p.incoming_.getD 4 0)
              ((p.incoming_.drop 5).take (read_be32 p.incoming_ - 1))).2
          incoming_ := p.incoming_.drop (4 + read_be32 p.incoming_) }

def parse_messages (p : Peer) : Peer :=
  parseMessagesFuel p.incoming_.length p

/-- Outcome of the final recv call of the read loop in
Peer::handle_readable: WOULDBLOCK (normal), end of file, or another
error. -/
inductive RecvEnd where
  | wouldBlock
  | eof
  | err
  deriving DecidableEq, Repr

/-- Peer::handle_readable: drain the socket (the drained bytes are `data`,
the loop's terminating recv result is `re`), then parse.  EOF or a
non-WOULDBLOCK error closes before any parsing. -/
def handle_readable (p : Peer) (data : List Nat) (re : RecvEnd) : Peer :=
  match re with
  | .eof => Peer.close { p with incoming_ := p.incoming_ ++ data }
  | .err => Peer.close { p with incoming_ := p.incoming_ ++ data }
  | .wouldBlock =>
    if !p.handshake_received_ then
      match ({ p with incoming_ := p.incoming_ ++ data } : Peer).parse_handshake with
      | (ok, p') =>
        if !ok then p'
        else if p'.handshake_received_ then p'.parse_messages else p'
    else ({ p with incoming_ := p.incoming_ ++ data } : Peer).parse_messages

/-- One send(2) result for the write loop. -/
inductive SendStep where
  | ok (n : Nat)
  | wouldBlock
  | fail
  deriving DecidableEq, Repr

/-- The while loop of Peer::handle_writable, fuelled; `sends` yields the
successive send(2) results.  A WOULDBLOCK returns, any other send failure
closes. -/
def writeLoop : Nat → Peer → List SendStep → Peer
  | 0, p, _ => p
  | fuel + 1, p, sends =>
    match p.outgoing_ with
    | [] => p
    | front :: restq =>
      if front.length - p.outgoing_offset_ == 0 then
        writeLoop fuel { p with outgoing_ := restq, outgoing_offset_ := 0 } sends
      else
        match sends with
        | [] => p
        | .wouldBlock :: _ => p
        | .fail :: _ => p.close
        | .ok n :: srest =>
          if p.outgoing_offset_ + n == front.length then
            writeLoop fuel { p with outgoing_ := restq, outgoing_offset_ := 0 } srest
          else
            writeLoop fuel { p with outgoing_offset_ := p.outgoing_offset_ + n } srest

/-- Peer::make_handshake: 19, "BitTorrent protocol", 8 zero reserved
bytes, info hash, our peer id. -/
def make_handshake (info_hash peer_id : List Nat) : List Nat :=
  19 :: pstrBytes ++ List.replicate 8 0 ++ info_hash ++ peer_id

def ensure_handshake_sent (p : Peer) : Peer :=
  if p.handshake_sent_ then p
  else { p with
    outgoing_ := p.outgoing_ ++ [make_handshake p.info_hash_ p.self_peer_id_]
    handshake_sent_ := true }

/-- Peer::handle_writable: the Connecting check (socket connect outcome is
the `connected` input), then the handshake enqueue and the send loop. -/
def handle_writable (p : Peer) (connected : Bool) (sends : List SendStep) : Peer :=
  if p.state_ == .Connecting && !connected then p.close
  else
    let p := if p.state_ == .Connecting then { p with state_ := .Handshaking } else p
    let p := p.ensure_handshake_sent
    writeLoop (p.outgoing_.length + sends.length + 1) p sends

end Peer

/-! ## Session: candidate queue, PEX ingestion, request top-up
(session.cpp evolution in src/unnamed/part_011 with header part_013) -/

structure PeerAddress where
  ip : String
  port : Nat
  deriving DecidableEq, Repr

/-- The de-dup key "ip:port" built by Session::enqueue_peer_candidate. -/
def endpointKey (a : PeerAddress) : String :=
  a.ip ++ ":" ++ toString a.port

/-- The Session state shared between the tracker worker and the event
thread: the pending candidate deque, the known-endpoint set (modelled as
the list of inserted keys) and the PEX discovery counter. -/
structure SessionSt where
  pending_peers_ : List PeerAddress
  known_endpoints_ : List String
  pex_peers_discovered_ : Nat
  deriving DecidableEq, Repr

/-- Session::enqueue_peer_candidate: insert the key into the set; only a
fresh key pushes the address onto the deque. -/
def enqueue_peer_candidate (st : SessionSt) (a : PeerAddress) : Bool × SessionSt :=
  let key := endpointKey a
  if st.known_endpoints_.contains key then (false, st)
  else
    (true, { st with
      known_endpoints_ := st.known_endpoints_ ++ [key]
      pending_peers_ := st.pending_peers_ ++ [a] })

/-- inet_ntop(AF_INET): dotted decimal of the four bytes. -/
def ipv4String (a b c d : Nat) : String :=
  toString a ++ "." ++ toString b ++ "." ++ toString c ++ "." ++ toString d

/-- The 6-byte-group loop of Session::handle_pex (pex.cpp); iterates while
at least 6 bytes remain. -/
def pexLoop (st : SessionSt) : List Nat → SessionSt
  | d0 :: d1 :: d2 :: d3 :: d4 :: d5 :: rest =>
    let pa := PeerAddress.mk (ipv4String d0 d1 d2 d3) ((d4 <<< 8).lor d5)
    let st := { st with pex_peers_discovered_ := st.pex_peers_discovered_ + 1 }
    let st := (enqueue_peer_candidate st pa).2
    pexLoop st rest
  | _ => st

/-- Session::handle_pex (pex.cpp): parse the bencoded payload, read the
compact `added` string, enqueue each endpoint.  Every parse/shape failure
is caught and leaves the state untouched. -/
def handle_pex (st : SessionSt) (payload : List Nat) : SessionSt :=
  match bencode.parse payload with
  | none => st
  | some v =>
    match bencode.as_dict v with
    | none => st
    | some dict =>
      match bencode.find_field dict [97, 100, 100, 101, 100] with
      | none => st
      | some av =>
        match bencode.as_string av with
        | none => st
        | some added =>
          if added.length % 6 != 0 then st
          else pexLoop st added

/-- The per-peer Session::PeerState fields maybe_request reads and
writes. -/
structure SessPeerState where
  bitfield : List Nat
  choked : Bool
  interested : Bool
  inflight_requests : Nat
  deriving DecidableEq, Repr

/-- Messages maybe_request enqueues on the wire. -/
inductive OutMsg where
  | interested
  | notInterested
  | request (piece begin_ length : Nat)
  deriving DecidableEq, Repr

/-- Session::peer_has_interesting: some piece the peer claims and we
lack. -/
def peer_has_interesting (pm : PieceManager) (st : SessPeerState) : Bool :=
  (List.range pm.torrent_.piece_hashes.length).any fun i =>
    !pm.have_piece i && bitfield_test st.bitfield i

/-- The while loop of Session::maybe_request (src/unnamed/part_011),
generic in the scheduler: part_011 calls
PieceManager::next_request_for_peer_rarest, whose definition is declared
in the PieceManager header but absent from the sources, so the loop is
proved for every scheduler `next` over any scheduler state `s`; the
round-robin next_request_for_peer above instantiates it.  The loop runs
while inflight_requests < 32 (kMaxInflightRequestsPerPeer) and stops when
the scheduler yields nothing; `32 - inflight` iterations always suffice,
which fuels the recursion. -/
def requestLoop {σ : Type}
    (next : σ → List Nat → Option PieceManager.Request × σ) :
    Nat → σ → SessPeerState → List OutMsg → σ × SessPeerState × List OutMsg
  | 0, s, st, msgs => (s, st, msgs)
  | fuel + 1, s, st, msgs =>
    if st.inflight_requests < 32 then
      match next s st.bitfield with
      | (none, s') => (s', st, msgs)
      | (some r, s') =>
        requestLoop next fuel s'
          { st with inflight_requests := st.inflight_requests + 1 }
          (msgs ++ [.request r.piece_index r.begin_ r.length])
    else (s, st, msgs)

/-- Session::maybe_request (src/unnamed/part_011 lines 532-566): interest
flip, the choke guard, then the request top-up loop. -/
def maybe_request {σ : Type}
    (next : σ → List Nat → Option PieceManager.Request × σ)
    (pm : PieceManager) (s : σ) (st : SessPeerState) :
    σ × SessPeerState × List OutMsg :=
  let interesting := peer_has_interesting pm st
  let (st, msgs) :=
    if interesting && !st.interested then
      ({ st with interested := true }, [OutMsg.interested])
    else if !interesting && st.interested then
      ({ st with interested := false }, [OutMsg.notInterested])
    else (st, ([] : List OutMsg))
  if st.choked then (s, st, msgs)
  else requestLoop next (32 - st.inflight_requests) s st msgs

/-! ## Observables and well-formedness predicates used by the theorems -/

/-- Per-buffer consistency with its piece: the invariant the PieceManager
constructor and both buffer-allocation sites establish. -/
def bufWF (pm : PieceManager) (i : Nat) (b : PieceBuffer) : Bool :=
  b.piece_length_ == PieceManager.piece_length_for pm.torrent_ i &&
  b.block_size_ == pm.block_size_ &&
  b.data_.length == PieceManager.piece_length_for pm.torrent_ i &&
  b.blocks_ == (PieceManager.piece_length_for pm.torrent_ i + pm.block_size_ - 1) /
    pm.block_size_ &&
  b.bitmap_.total_ == b.blocks_

/-- PieceManager well-formedness: positive block size, one PieceState per
piece hash, and each allocated buffer consistent with its piece. -/
def PieceManager.WF (pm : PieceManager) : Prop :=
  0 < pm.block_size_ ∧
  pm.pieces_.length = pm.torrent_.piece_hashes.length ∧
  ∀ i < pm.pieces_.length,
    ((pm.pieces_.getD i default).buffer.all fun b => bufWF pm i b) = true

/-- The piece buffer handle_block works on: the allocated one, else the
fresh buffer the lazy allocation would create. -/
def PieceManager.bufferOf (pm : PieceManager) (i : Nat) : PieceBuffer :=
  (pm.pieces_.getD i default).buffer.getD
    (PieceBuffer.init (PieceManager.piece_length_for pm.torrent_ i) pm.block_size_)

/-- Expected length of block `k` of a piece of length `L` (spec §4.2): `B`
unless `k` is the final block, which takes the remainder. -/
def expected_block_len (L B k : Nat) : Nat :=
  if k == (L + B - 1) / B - 1 then L - k * B else B

/-- A piece the scheduler can serve to a peer: not yet Have, claimed by
the peer's bitfield, and holding at least one unrequested block. -/
def eligible (pm : PieceManager) (bf : List Nat) (idx : Nat) : Prop :=
  pm.have_piece idx = false ∧ bitfield_test bf idx = true ∧
  PieceManager.firstUnrequested (pm.pieces_.getD idx default).requested ≠ none

/-- Boolean form of `eligible`, usable as a `find?` predicate. -/
def eligibleB (pm : PieceManager) (bf : List Nat) (idx : Nat) : Bool :=
  !pm.have_piece idx && bitfield_test bf idx &&
    (PieceManager.firstUnrequested (pm.pieces_.getD idx default).requested).isSome

/-- Two managers that differ at most in piece buffers: what the scan loop
of next_request_for_peer mutates before returning. -/
def skeletonEq (pm pm' : PieceManager) : Prop :=
  pm'.torrent_ = pm.torrent_ ∧ pm'.block_size_ = pm.block_size_ ∧
  pm'.next_piece_cursor_ = pm.next_piece_cursor_ ∧
  pm'.pieces_.length = pm.pieces_.length ∧
  ∀ i, (pm'.pieces_.getD i default).have_ = (pm.pieces_.getD i default).have_ ∧
    (pm'.pieces_.getD i default).requested = (pm.pieces_.getD i default).requested

/-- A span that a positional read fully covers in the given file system. -/
def spanOK (fs : FS) (s : SpanT) : Prop :=
  0 ≤ s.offset ∧ s.offset.toNat + s.length ≤ (fs.getD s.fd []).length

/-- The bytes the span reads deliver when none is short. -/
def readSpans (fs : FS) : List SpanT → List Nat
  | [] => []
  | s :: rest =>
    (((fs.getD s.fd []).drop s.offset.toNat).take s.length) ++ readSpans fs rest

/-- Number of Request messages in an outbound batch. -/
def countRequests (msgs : List OutMsg) : Nat :=
  (msgs.filter fun m => match m with
    | .request _ _ _ => true
    | _ => false).length

/-- Candidate-queue invariant (spec §8 item 4): pairwise distinct ip:port
keys, each of them recorded in the known-endpoint set. -/
def SessionSt.Inv (st : SessionSt) : Prop :=
  (st.pending_peers_.map endpointKey).Nodup ∧
  ∀ a ∈ st.pending_peers_, endpointKey a ∈ st.known_endpoints_

/-! ## Concrete inputs used by counterexamples and witnesses -/

/-- One 32-byte piece, block size 16 in the manager below. -/
def tor32 : TorrentFile := ⟨32, [List.replicate 20 0], [⟨32⟩]⟩

def pm32 : PieceManager := PieceManager.init tor32 16

/-- One 2-byte piece whose stored hash (all zeros) is not the SHA-1 of any
payload fed below. -/
def tor2 : TorrentFile := ⟨2, [List.replicate 20 0], [⟨2⟩]⟩

def pm2 : PieceManager := PieceManager.init tor2 16384

/-- Two 16-byte pieces for the scheduler scenarios. -/
def torS2 : TorrentFile := ⟨16, [List.replicate 20 0, List.replicate 20 0], [⟨32⟩]⟩

def pmS2 : PieceManager := PieceManager.init torS2 16

/-- Peer A holds pieces 0 and 1. -/
def bfA : List Nat := [192]

/-- Peer B of the claim's scenario holds piece 1 only. -/
def bfB : List Nat := [64]

/-- A second peer holding piece 0 only (makes piece 1 strictly rarer). -/
def bfB2 : List Nat := [128]

/-- Scenario S1: files a:100 and b:200 bytes, piece length 128. -/
def torS1 : TorrentFile :=
  ⟨128, [List.replicate 20 0, List.replicate 20 0, List.replicate 20 0], [⟨100⟩, ⟨200⟩]⟩

def stS1 : Storage := Storage.init torS1

/-- Contents of file a: bytes 0..99. -/
def aS1 : List Nat := List.range 100

/-- Contents of file b: bytes 100..299 reduced mod 256. -/
def bS1 : List Nat := (List.range 200).map fun k => (100 + k) % 256

def fsS1 : FS := [aS1, bS1]

/-- A torrent whose middle file is zero-length: files 64, 0, 64 bytes with
one 128-byte piece. -/
def torZ : TorrentFile := ⟨128, [List.replicate 20 0], [⟨64⟩, ⟨0⟩, ⟨64⟩]⟩

def stZ : Storage := Storage.init torZ

def fsZ : FS := [List.replicate 64 0, [], List.replicate 64 0]

def ihash : List Nat := List.replicate 20 3

def selfId : List Nat := List.replicate 20 7

/-- A remote peer id different from ours. -/
def otherId : List Nat := List.replicate 20 9

/-- An outbound connection in Handshaking whose inbound buffer holds a
valid handshake carrying our own peer id (a self-connection). -/
def pSelf : Peer :=
  ⟨.Handshaking, ihash, selfId, [], false, true,
    Peer.make_handshake ihash selfId, [], 0, [], 0⟩

/-- The same connection receiving a normal remote id. -/
def pOther : Peer :=
  ⟨.Handshaking, ihash, selfId, [], false, true,
    Peer.make_handshake ihash otherId, [], 0, [], 0⟩

/-- An established Active connection with an empty inbound buffer. -/
def pAct : Peer := ⟨.Active, ihash, selfId, otherId, true, true, [], [], 0, [], 0⟩

/-- An Active connection with one queued, not yet flushed outbound
frame. -/
def pActW : Peer := ⟨.Active, ihash, selfId, otherId, true, true, [], [[0, 0, 0, 1, 2]], 0, [], 0⟩

/-- A Have message claiming piece 1000 — far beyond tor32's piece count. -/
def haveOOR : List Nat := [0, 0, 0, 5, 4, 0, 0, 3, 232]

/-- A bencoded ut_pex payload: added = three compact IPv4 endpoints
(1.2.3.4:8080, 5.6.7.8:80, 9.10.11.12:443). -/
def pexPayload : List Nat :=
  [100, 53, 58, 97, 100, 100, 101, 100, 49, 56, 58] ++
  [1, 2, 3, 4, 31, 144, 5, 6, 7, 8, 0, 80, 9, 10, 11, 12, 1, 187] ++ [101]

/-- Session state with nothing pending and nothing known. -/
def sess0 : SessionSt := ⟨[], [], 0⟩

def pa1 : PeerAddress := ⟨"1.2.3.4", 8080⟩

def pa2 : PeerAddress := ⟨"5.6.7.8", 80⟩

/-- Session state already knowing pa1. -/
def sess1 : SessionSt := ⟨[pa1], [endpointKey pa1], 0⟩

/-- A peer state that is unchoked with 31 requests already inflight. -/
def spUnchoked : SessPeerState := ⟨bfA, false, true, 31⟩

/-- A choked peer state. -/
def spChoked : SessPeerState := ⟨bfA, true, true, 0⟩

instance (st : SessionSt) : Decidable st.Inv := by
  unfold SessionSt.Inv; infer_instance

instance (pm : PieceManager) (bf : List Nat) (idx : Nat) :
    Decidable (eligible pm bf idx) := by
  unfold eligible; infer_instance

instance (pm : PieceManager) : Decidable pm.WF := by
  unfold PieceManager.WF; infer_instance

instance (fs : FS) (s : SpanT) : Decidable (spanOK fs s) := by
  unfold spanOK; infer_instance

/-! ## Helper lemmas -/

theorem getD_set_self {α : Type} (l : List α) (i : Nat) (x d : α)
    (h : i < l.length) : (l.set i x).getD i d = x := by
  induction l generalizing i with
  | nil => simp at h
  | cons a t ih =>
    cases i with
    | zero => rfl
    | succ j => simpa using ih j (by simpa using h)

theorem getD_set_ne {α : Type} (l : List α) (i j : Nat) (x d : α)
    (h : i ≠ j) : (l.set j x).getD i d = l.getD i d := by
  induction l generalizing i j with
  | nil => rfl
  | cons a t ih =>
    cases j with
    | zero => cases i with
      | zero => exact absurd rfl h
      | succ k => rfl
    | succ j' => cases i with
      | zero => rfl
      | succ k => simpa using ih k j' fun hk => h (by simp [hk])

theorem map_const_false (l : List Bool) :
    l.map (fun _ => false) = List.replicate l.length false := by
  induction l with
  | nil => rfl
  | cons a t ih => simp [ih, List.replicate]

theorem skeletonEq_refl (pm : PieceManager) : skeletonEq pm pm :=
  ⟨rfl, rfl, rfl, rfl, fun _ => ⟨rfl, rfl⟩⟩

/-- Overwriting one PieceState with one of the same Have flag and requested
bits (the scan loop only swaps buffers in) preserves `skeletonEq`. -/
theorem skeletonEq_set (pm0 pm : PieceManager) (hsk : skeletonEq pm0 pm)
    (idx : Nat) (st : PieceState)
    (hh : st.have_ = (pm.pieces_.getD idx default).have_)
    (hr : st.requested = (pm.pieces_.getD idx default).requested) :
    skeletonEq pm0 { pm with pieces_ := pm.pieces_.set idx st } := by
  obtain ⟨h1, h2, h3, h4, h5⟩ := hsk
  refine ⟨h1, h2, h3, by simpa using h4, fun i => ?_⟩
  by_cases hij : i = idx
  · subst hij
    by_cases hlt : i < pm.pieces_.length
    · show ((pm.pieces_.set i st).getD i default).have_ = _ ∧
        ((pm.pieces_.set i st).getD i default).requested = _
      rw [getD_set_self _ _ _ _ hlt]
      exact ⟨hh.trans (h5 i).1, hr.trans (h5 i).2⟩
    · show ((pm.pieces_.set i st).getD i default).have_ = _ ∧
        ((pm.pieces_.set i st).getD i default).requested = _
      rw [List.set_eq_of_length_le (Nat.le_of_not_lt hlt)]
      exact h5 i
  · show ((pm.pieces_.set idx st).getD i default).have_ = _ ∧
      ((pm.pieces_.set idx st).getD i default).requested = _
    rw [getD_set_ne _ _ _ _ _ hij]
    exact h5 i

theorem have_piece_congr (pm0 pm : PieceManager) (hsk : skeletonEq pm0 pm)
    (j : Nat) : pm.have_piece j = pm0.have_piece j := by
  obtain ⟨-, -, -, h4, h5⟩ := hsk
  unfold PieceManager.have_piece
  rw [h4, (h5 j).1]

/-- When the round-robin scan returns a request, its piece is the first
index of the round-robin order that is eligible (with eligibility read off
the skeleton, which the loop never changes). -/
theorem nextReqLoop_find (pm0 : PieceManager) (bf : List Nat) :
    ∀ (offsets : List Nat) (pm : PieceManager), skeletonEq pm0 pm →
      ∀ r, (PieceManager.nextReqLoop pm bf offsets).1 = some r →
        (offsets.map fun o =>
            (pm0.next_piece_cursor_ + o) % pm0.pieces_.length).find?
          (eligibleB pm0 bf) = some r.piece_index := by
  intro offsets
  induction offsets with
  | nil => intro pm hsk r hr; cases hr
  | cons o rest ih =>
    intro pm hsk r hr
    obtain ⟨htor, hbs, hcur, hlen, hps⟩ := hsk
    have hsk' : skeletonEq pm0 pm := ⟨htor, hbs, hcur, hlen, hps⟩
    have hidx : (pm.next_piece_cursor_ + o) % pm.pieces_.length =
        (pm0.next_piece_cursor_ + o) % pm0.pieces_.length := by rw [hcur, hlen]
    simp only [PieceManager.nextReqLoop] at hr
    rw [hidx] at hr
    simp only [List.map_cons]
    by_cases hH : pm.have_piece
        ((pm0.next_piece_cursor_ + o) % pm0.pieces_.length) = true
    · rw [if_pos hH] at hr
      have hH0 := (have_piece_congr pm0 pm hsk' _).symm.trans hH
      rw [List.find?_cons_of_neg _ (by simp [eligibleB, hH0])]
      exact ih pm hsk' r hr
    · rw [if_neg hH] at hr
      by_cases hBF : (!bitfield_test bf
          ((pm0.next_piece_cursor_ + o) % pm0.pieces_.length)) = true
      · rw [if_pos hBF] at hr
        have hbf0 : bitfield_test bf
            ((pm0.next_piece_cursor_ + o) % pm0.pieces_.length) = false := by
          simp at hBF; exact hBF
        rw [List.find?_cons_of_neg _ (by simp [eligibleB, hbf0])]
        exact ih pm hsk' r hr
      · rw [if_neg hBF] at hr
        have hbf1 : bitfield_test bf
            ((pm0.next_piece_cursor_ + o) % pm0.pieces_.length) = true := by
          simp at hBF; exact hBF
        have hreq := (hps ((pm0.next_piece_cursor_ + o) % pm0.pieces_.length)).2
        have hH0 : pm0.have_piece
            ((pm0.next_piece_cursor_ + o) % pm0.pieces_.length) = false := by
          rw [← have_piece_congr pm0 pm hsk' _]
          simp at hH; exact hH
        rcases hFU : PieceManager.firstUnrequested
            ((pm.pieces_.getD ((pm0.next_piece_cursor_ + o) %
              pm0.pieces_.length) default).requested) with _ | b
        · rw [hFU] at hr
          dsimp only at hr
          have hel : eligibleB pm0 bf
              ((pm0.next_piece_cursor_ + o) % pm0.pieces_.length) = false := by
            unfold eligibleB
            rw [← hreq, hFU]
            simp
          rw [List.find?_cons_of_neg _ (by simp [hel])]
          refine ih _ (skeletonEq_set pm0 pm hsk'
            ((pm0.next_piece_cursor_ + o) % pm0.pieces_.length)
            (PieceState.mk (pm.pieces_.getD ((pm0.next_piece_cursor_ + o) %
                pm0.pieces_.length) default).have_
              (pm.pieces_.getD ((pm0.next_piece_cursor_ + o) %
                pm0.pieces_.length) default).requested
              (some ((pm.pieces_.getD ((pm0.next_piece_cursor_ + o) %
                  pm0.pieces_.length) default).buffer.getD
                (PieceBuffer.init (PieceManager.piece_length_for pm.torrent_
                  ((pm0.next_piece_cursor_ + o) % pm0.pieces_.length))
                  pm.block_size_)))
              (pm.pieces_.getD ((pm0.next_piece_cursor_ + o) %
                pm0.pieces_.length) default).blocks)
            rfl rfl) r hr
        · rw [hFU] at hr
          dsimp only at hr
          have hel : eligibleB pm0 bf
              ((pm0.next_piece_cursor_ + o) % pm0.pieces_.length) = true := by
            unfold eligibleB
            rw [← hreq, hFU, hH0, hbf1]
            rfl
          rw [List.find?_cons_of_pos _ hel]
          cases hr
          rfl

/-- PieceBuffer::write_block rejects (returns accepted = false) exactly on
the four source conditions: overshoot past the piece length, an empty
payload, a length that is neither the expected block length nor lands
exactly on the piece end, or an already-received block. -/
theorem write_block_false_iff (b : PieceBuffer) (offs : Nat) (src : List Nat) :
    ((b.write_block offs src).1.1 = false) ↔
      (b.piece_length_ < offs + src.length ∨ src.length = 0 ∨
       (src.length ≠ (if offs / b.block_size_ == b.blocks_ - 1 then
           b.piece_length_ - offs / b.block_size_ * b.block_size_
         else b.block_size_) ∧ offs + src.length ≠ b.piece_length_) ∨
       b.bitmap_.test (offs / b.block_size_) = true) := by
  simp only [PieceBuffer.write_block]
  generalize (if offs / b.block_size_ == b.blocks_ - 1 then
      b.piece_length_ - offs / b.block_size_ * b.block_size_
    else b.block_size_) = E
  split_ifs with h1 h2 h3 h4
  · exact iff_of_true rfl (Or.inl h1)
  · exact iff_of_true rfl (Or.inr (Or.inl (by simpa using h2)))
  · rw [Bool.and_eq_true, bne_iff_ne, bne_iff_ne] at h3
    exact iff_of_true rfl (Or.inr (Or.inr (Or.inl h3)))
  · exact iff_of_true rfl (Or.inr (Or.inr (Or.inr h4)))
  · refine iff_of_false (by simp) ?_
    rintro (h | h | ⟨ha, hb⟩ | h)
    · exact h1 h
    · exact h2 (by simpa using h)
    · rw [Bool.and_eq_true, bne_iff_ne, bne_iff_ne] at h3
      exact h3 ⟨ha, hb⟩
    · exact h4 h

/-! ## C10: an out-of-range piece index is rejected before any state is
touched -/

/-- C10: for every piece_index at or past the number of pieces,
handle_block returns false and the manager — have_bitfield, every piece's
requested bits, buffers and Have flags — is returned unchanged. -/
theorem c10_out_of_range_rejected (pm : PieceManager) (i begin_ : Nat)
    (data : List Nat) (h : pm.pieces_.length ≤ i) :
    pm.handle_block i begin_ data = (false, pm) := by
  unfold PieceManager.handle_block
  rw [if_pos h]

theorem c10_witness :
    pm32.pieces_.length ≤ 5 ∧ pm32.handle_block 5 0 [] = (false, pm32) :=
  ⟨by decide, c10_out_of_range_rejected pm32 5 0 [] (by decide)⟩

/-! ## C7: a zero-length file produces a zero-length span and write_piece
then fails -/

set_option maxRecDepth 8192 in
/-- C7 (code bug): for the torrent with files of 64, 0 and 64 bytes and one
128-byte piece, build_piece_spans emits a zero-length span for the
zero-length middle file (fd 1), and write_piece of the fully supplied piece
returns false on that span — against the spec, which promises zero spans
from a zero-length file and a successful write. -/
theorem c7_zero_length_file_bug :
    SpanT.mk 1 0 0 ∈ stZ.piece_spans_.getD 0 [] ∧
    stZ.files_.getD 1 ⟨0, 0⟩ = ⟨1, 0⟩ ∧
    (stZ.write_piece fsZ 0 (List.replicate 128 5)).1 = false := by decide

/-! ## C6: SHA-1 mismatch on the final block resets the piece -/

/-- C6: when a block is accepted and completes its piece but the SHA-1 of
the assembled buffer differs from the descriptor's hash, handle_block
returns false, the buffer is discarded, all requested bits are cleared
(the received bits live in the discarded buffer), the piece is not Have
and its have_bitfield bit stays clear. -/
theorem c6_hash_mismatch_resets (pm : PieceManager) (i begin_ : Nat)
    (data : List Nat)
    (h1 : i < pm.pieces_.length)
    (h2 : pm.have_piece i = false)
    (hw : ((pm.bufferOf i).write_block begin_ data).1 = (true, true))
    (hh : sha1 ((pm.bufferOf i).write_block begin_ data).2.data_ ≠
      pm.torrent_.piece_hashes.getD i [])
    (hb : bitfield_test pm.have_bitfield_ i = false) :
    (pm.handle_block i begin_ data).1 = false ∧
    ((pm.handle_block i begin_ data).2.pieces_.getD i default).buffer = none ∧
    ((pm.handle_block i begin_ data).2.pieces_.getD i default).requested =
      List.replicate (pm.pieces_.getD i default).requested.length false ∧
    ((pm.handle_block i begin_ data).2.pieces_.getD i default).have_ = false ∧
    bitfield_test (pm.handle_block i begin_ data).2.have_bitfield_ i = false := by
  have hnot : ¬ pm.pieces_.length ≤ i := Nat.not_le.mpr h1
  have hw1 : ((pm.bufferOf i).write_block begin_ data).1.1 = true := by rw [hw]
  have hw2 : ((pm.bufferOf i).write_block begin_ data).1.2 = true := by rw [hw]
  have hbeq : (sha1 ((pm.bufferOf i).write_block begin_ data).2.data_ ==
      pm.torrent_.piece_hashes.getD i []) = false := beq_eq_false_iff_ne.mpr hh
  have hhv : (pm.pieces_.getD i default).have_ = false := by
    unfold PieceManager.have_piece at h2
    rwa [if_neg hnot] at h2
  simp only [PieceManager.bufferOf] at hw1 hw2 hbeq
  have hstep : pm.handle_block i begin_ data =
      (false, { pm with pieces_ := pm.pieces_.set i (PieceState.mk (pm.pieces_.getD i default).have_ ((pm.pieces_.getD i default).requested.map fun _ => false) none (pm.pieces_.getD i default).blocks) }) := by
    unfold PieceManager.handle_block PieceManager.reset_piece
    rw [if_neg hnot, if_neg (by rw [h2]; exact Bool.false_ne_true)]
    simp only [hw1, hw2, hbeq, Bool.not_true, Bool.false_eq_true, if_false,
      if_true, ite_false, ite_true, List.set_set, List.length_set]
    rw [if_neg hnot, getD_set_self _ _ _ _ h1]
  rw [hstep]
  refine ⟨rfl, ?_, ?_, ?_, hb⟩
  · exact congrArg PieceState.buffer (getD_set_self _ _ _ _ h1)
  · rw [getD_set_self _ _ _ _ h1]
    exact map_const_false _
  · rw [getD_set_self _ _ _ _ h1]
    exact hhv

set_option maxRecDepth 8192 in
/-- C1 counterexample: on a fresh 32-byte piece with block size 16,
handle_block accepts a 16-byte block at begin = 8, although 8 is not a
multiple of the block size — the claim's rejection list demands false
here. -/
theorem c1_counterexample :
    (pm32.handle_block 0 8 (List.replicate 16 7)).1 = true ∧
    ¬ (8 % pm32.block_size_ = 0) := by decide

set_option maxRecDepth 8192 in
/-- C2 counterexample: peer A holds pieces 0 and 1, a second peer holds
piece 0 only, so piece 1 is strictly rarer and eligible for A — yet
next_request_for_peer hands A a block of piece 0 first, refuting the
ascending-availability order. -/
theorem c2_counterexample :
    (pmS2.next_request_for_peer bfA).1 = some ⟨0, 0, 16⟩ ∧
    peerAvailability [bfA, bfB2] 1 < peerAvailability [bfA, bfB2] 0 ∧
    bitfield_test bfA 1 = true ∧ pmS2.have_piece 1 = false ∧
    PieceManager.firstUnrequested (pmS2.pieces_.getD 1 default).requested ≠
      none := by decide

set_option maxRecDepth 8192 in
/-- C3 counterexample: a Handshaking connection that receives a valid
preamble whose peer id equals our own reaches Active — the claim demands
Closed without ever reaching Active on a self-connection. -/
theorem c3_counterexample :
    (pSelf.parse_handshake).2.state_ = PState.Active ∧
    (pSelf.parse_handshake).2.remote_peer_id_ = pSelf.self_peer_id_ ∧
    pSelf.state_ = PState.Handshaking := by decide

set_option maxRecDepth 8192 in
/-- C4 counterexample: an Active connection fed a Have message whose piece
index (1000) is out of range for the one-piece torrent stays Active and
surfaces the event — the claim demands a transition to Closed. -/
theorem c4_counterexample :
    (pAct.handle_readable haveOOR Peer.RecvEnd.wouldBlock).state_ =
      PState.Active ∧
    (pAct.handle_readable haveOOR Peer.RecvEnd.wouldBlock).events_ =
      [⟨EventType.Have, [], [], 1000, 0, 0⟩] ∧
    tor32.piece_hashes.length ≤ 1000 := by decide

set_option maxRecDepth 8192 in
/-- C5 counterexample: the zero-length read (0, 0, 0) lies within piece
0's logical length and no read could be short, yet read_block fails — the
claim promises the (empty) requested bytes for every in-range triple. -/
theorem c5_counterexample :
    stS1.read_block fsS1 0 0 0 = none ∧
    0 + 0 ≤ PieceManager.piece_length_for torS1 0 ∧
    0 < stS1.piece_spans_.length := by decide

set_option maxRecDepth 8192 in
theorem c6_witness :
    (0 < pm2.pieces_.length ∧ pm2.have_piece 0 = false ∧
     ((pm2.bufferOf 0).write_block 0 [97, 98]).1 = (true, true) ∧
     sha1 ((pm2.bufferOf 0).write_block 0 [97, 98]).2.data_ ≠
       pm2.torrent_.piece_hashes.getD 0 [] ∧
     bitfield_test pm2.have_bitfield_ 0 = false) ∧
    ((pm2.handle_block 0 0 [97, 98]).1 = false ∧
     ((pm2.handle_block 0 0 [97, 98]).2.pieces_.getD 0 default).buffer = none ∧
     ((pm2.handle_block 0 0 [97, 98]).2.pieces_.getD 0 default).requested =
       List.replicate (pm2.pieces_.getD 0 default).requested.length false ∧
     ((pm2.handle_block 0 0 [97, 98]).2.pieces_.getD 0 default).have_ = false ∧
     bitfield_test (pm2.handle_block 0 0 [97, 98]).2.have_bitfield_ 0 = false) :=
  ⟨⟨by decide, by decide, by decide, by decide, by decide⟩,
   c6_hash_mismatch_resets pm2 0 0 [97, 98] (by decide) (by decide) (by decide)
     (by decide) (by decide)⟩

/-! ## C3: what actually drives Handshaking → Active -/

/-- C3 (amended): a Handshaking connection transitions to Active exactly
when a full 68-byte preamble with pstrlen 19, the BitTorrent protocol
string and our info hash has arrived — the remote peer id is recorded but
never compared with our own, so a self-connection also reaches Active;
otherwise the connection stays in Handshaking (short read) or is
Closed. -/
theorem c3_parse_handshake_active_iff (p : Peer)
    (h : p.state_ = PState.Handshaking) :
    ((p.parse_handshake).2.state_ = PState.Active ↔
      (68 ≤ p.incoming_.length ∧ p.incoming_.getD 0 0 = 19 ∧
       (p.incoming_.drop 1).take 19 = Peer.pstrBytes ∧
       (p.incoming_.drop 28).take 20 = p.info_hash_)) ∧
    ((p.parse_handshake).1 = true →
      (p.parse_handshake).2.remote_peer_id_ = (p.incoming_.drop 48).take 20) ∧
    ((p.parse_handshake).2.state_ ≠ PState.Active →
      (p.parse_handshake).2.state_ = PState.Handshaking ∨
      (p.parse_handshake).2.state_ = PState.Closed) := by
  unfold Peer.parse_handshake
  split_ifs with hc1 hc2 hc3 hc4
  · simp only [h]
    refine ⟨?_, by simp, by simp⟩
    constructor
    · intro hx; cases hx
    · rintro ⟨hlen, -⟩; omega
  · simp only [Peer.close]
    refine ⟨?_, by simp, by simp⟩
    constructor
    · intro hx; cases hx
    · rintro ⟨-, h19, -⟩
      rw [bne_iff_ne] at hc2
      exact absurd h19 hc2
  · simp only [Peer.close]
    refine ⟨?_, by simp, by simp⟩
    constructor
    · intro hx; cases hx
    · rintro ⟨-, -, hps, -⟩
      exact absurd hps hc3
  · simp only [Peer.close]
    refine ⟨?_, by simp, by simp⟩
    constructor
    · intro hx; cases hx
    · rintro ⟨-, -, -, hih⟩
      exact absurd hih hc4
  · simp only [h]
    refine ⟨?_, fun _ => rfl, fun hx => absurd rfl hx⟩
    constructor
    · intro _
      refine ⟨by omega, ?_, ?_, ?_⟩
      · simpa [bne_iff_ne] using hc2
      · simpa using hc3
      · simpa using hc4
    · intro _; rfl

theorem c3_witness :
    pOther.state_ = PState.Handshaking ∧
    (((pOther.parse_handshake).2.state_ = PState.Active ↔
       (68 ≤ pOther.incoming_.length ∧ pOther.incoming_.getD 0 0 = 19 ∧
        (pOther.incoming_.drop 1).take 19 = Peer.pstrBytes ∧
        (pOther.incoming_.drop 28).take 20 = pOther.info_hash_)) ∧
     ((pOther.parse_handshake).1 = true →
       (pOther.parse_handshake).2.remote_peer_id_ =
         (pOther.incoming_.drop 48).take 20) ∧
     ((pOther.parse_handshake).2.state_ ≠ PState.Active →
       (pOther.parse_handshake).2.state_ = PState.Handshaking ∨
       (pOther.parse_handshake).2.state_ = PState.Closed)) :=
  ⟨rfl, c3_parse_handshake_active_iff pOther rfl⟩

/-! ## C4: what actually drives Active → Closed -/

theorem parseMessagesFuel_state (fuel : Nat) :
    ∀ p : Peer, (Peer.parseMessagesFuel fuel p).state_ = p.state_ := by
  induction fuel with
  | zero => intro p; rfl
  | succ n ih =>
    intro p
    unfold Peer.parseMessagesFuel
    split
    · rfl
    · split
      · simp [ih]
      · split
        · rfl
        · simp [ih]

theorem writeLoop_state :
    ∀ (fuel : Nat) (p : Peer) (sends : List Peer.SendStep),
      (Peer.writeLoop fuel p sends).state_ = p.state_ ∨
      (Peer.writeLoop fuel p sends).state_ = PState.Closed
  | 0, _, _ => Or.inl rfl
  | fuel + 1, p, sends => by
    unfold Peer.writeLoop
    split
    · exact Or.inl rfl
    · split
      · exact writeLoop_state fuel _ sends
      · split
        · exact Or.inl rfl
        · exact Or.inl rfl
        · exact Or.inr rfl
        · split
          · exact writeLoop_state fuel _ _
          · exact writeLoop_state fuel _ _

theorem parse_handshake_state_closed (p : Peer) (h : p.state_ = PState.Closed) :
    (p.parse_handshake).2.state_ = PState.Closed := by
  unfold Peer.parse_handshake
  split_ifs <;> simp [Peer.close, h]

/-- C4 (amended): an Active connection is closed by read EOF, a fatal read
error, a write failure or an external handle_error call — but never by an
inbound protocol decoding violation: parse_messages preserves the
connection state on every input (malformed messages are skipped or
surfaced as events), and once Closed the connection never becomes Active
again. -/
theorem c4_active_to_closed (p : Peer) (data : List Nat) (c : Bool)
    (sends : List Peer.SendStep) (re : Peer.RecvEnd) :
    (p.parse_messages).state_ = p.state_ ∧
    (p.handle_readable data Peer.RecvEnd.eof).state_ = PState.Closed ∧
    (p.handle_readable data Peer.RecvEnd.err).state_ = PState.Closed ∧
    (p.handle_error).state_ = PState.Closed ∧
    (p.state_ = PState.Active → p.handshake_sent_ = true →
      ∀ front rest, p.outgoing_ = front :: rest →
        p.outgoing_offset_ < front.length →
        (p.handle_writable c (Peer.SendStep.fail :: sends)).state_ =
          PState.Closed) ∧
    (p.state_ = PState.Closed →
      (p.handle_readable data re).state_ = PState.Closed ∧
      (p.handle_writable c sends).state_ = PState.Closed) := by
  refine ⟨parseMessagesFuel_state _ p, rfl, rfl, rfl, ?_, ?_⟩
  · intro hact hsent front rest houtg hoff
    have hrem : (front.length - p.outgoing_offset_ == 0) = false := by
      simp [Nat.sub_ne_zero_of_lt hoff]
    unfold Peer.handle_writable Peer.ensure_handshake_sent
    rw [hact]
    simp only [show (PState.Active == PState.Connecting) = false from rfl,
      Bool.false_and, Bool.false_eq_true, if_false, ite_false, hsent, if_true,
      ite_true]
    unfold Peer.writeLoop
    simp only [houtg, hrem, Bool.false_eq_true, if_false, ite_false]
    rfl
  · intro hclosed
    constructor
    · unfold Peer.handle_readable
      rcases re with _ | _ | _
      · rcases hph : ({ p with incoming_ := p.incoming_ ++ data } :
            Peer).parse_handshake with ⟨ok, p'⟩
        have hp' : p'.state_ = PState.Closed := by
          have h0 := parse_handshake_state_closed
            { p with incoming_ := p.incoming_ ++ data } hclosed
          rw [hph] at h0
          exact h0
        dsimp only
        split_ifs with hhr hok hrecv
        · exact hp'
        · rw [Peer.parse_messages, parseMessagesFuel_state]
          exact hp'
        · exact hp'
        · rw [Peer.parse_messages, parseMessagesFuel_state]
          exact hclosed
      · rfl
      · rfl
    · unfold Peer.handle_writable
      rw [hclosed]
      simp only [show (PState.Closed == PState.Connecting) = false from rfl,
        Bool.false_and, Bool.false_eq_true, if_false, ite_false]
      rcases writeLoop_state (p.ensure_handshake_sent.outgoing_.length +
          sends.length + 1) p.ensure_handshake_sent sends with hs | hs
      · rw [hs]
        unfold Peer.ensure_handshake_sent
        split_ifs <;> exact hclosed
      · exact hs

theorem c4_witness :
    (pActW.state_ = PState.Active ∧ pActW.handshake_sent_ = true ∧
     pActW.outgoing_ = [0, 0, 0, 1, 2] :: [] ∧
     pActW.outgoing_offset_ < ([0, 0, 0, 1, 2] : List Nat).length) ∧
    (pActW.handle_writable true [Peer.SendStep.fail]).state_ =
      PState.Closed :=
  ⟨⟨rfl, rfl, rfl, by decide⟩,
   (c4_active_to_closed pActW [] true [] Peer.RecvEnd.wouldBlock).2.2.2.2.1
     rfl rfl [0, 0, 0, 1, 2] [] rfl (by decide)⟩

/-! ## C8: the request top-up loop of Session::maybe_request -/

theorem countRequests_append_request (msgs : List OutMsg) (a b c : Nat) :
    countRequests (msgs ++ [OutMsg.request a b c]) = countRequests msgs + 1 := by
  simp [countRequests, List.filter_append]

theorem requestLoop_spec {σ : Type}
    (next : σ → List Nat → Option PieceManager.Request × σ) :
    ∀ (fuel : Nat) (s : σ) (st : SessPeerState) (msgs : List OutMsg),
      (requestLoop next fuel s st msgs).2.1.bitfield = st.bitfield ∧
      (requestLoop next fuel s st msgs).2.1.choked = st.choked ∧
      st.inflight_requests ≤
        (requestLoop next fuel s st msgs).2.1.inflight_requests ∧
      (st.inflight_requests ≤ 32 →
        (requestLoop next fuel s st msgs).2.1.inflight_requests ≤ 32) ∧
      countRequests (requestLoop next fuel s st msgs).2.2 =
        countRequests msgs +
          ((requestLoop next fuel s st msgs).2.1.inflight_requests -
            st.inflight_requests) ∧
      (32 - st.inflight_requests ≤ fuel →
        (32 ≤ (requestLoop next fuel s st msgs).2.1.inflight_requests ∨
          ∃ s0, next s0 st.bitfield = (none, (requestLoop next fuel s st msgs).1))) := by
  intro fuel
  induction fuel with
  | zero =>
    intro s st msgs
    unfold requestLoop
    dsimp only
    refine ⟨rfl, rfl, Nat.le_refl _, fun h => h, by omega, fun hf => ?_⟩
    exact Or.inl (by omega)
  | succ n ih =>
    intro s st msgs
    unfold requestLoop
    split_ifs with hlt
    · rcases hnext : next s st.bitfield with ⟨o, s'⟩
      rcases o with _ | req
      · dsimp only
        refine ⟨rfl, rfl, Nat.le_refl _, fun h => h, by omega, fun _ => ?_⟩
        exact Or.inr ⟨s, hnext⟩
      · dsimp only
        obtain ⟨bf, ch, intr, infl⟩ := st
        dsimp only at hlt ⊢
        generalize hR : requestLoop next n s'
          (SessPeerState.mk bf ch intr (infl + 1))
          (msgs ++ [OutMsg.request req.piece_index req.begin_ req.length]) = R
        have hrec := ih s' (SessPeerState.mk bf ch intr (infl + 1))
          (msgs ++ [OutMsg.request req.piece_index req.begin_ req.length])
        rw [hR] at hrec
        obtain ⟨hb, hc, hm, hle, hcount, hexit⟩ := hrec
        have hm' : infl + 1 ≤ R.2.1.inflight_requests := hm
        have hcount' : countRequests R.2.2 =
            countRequests msgs + 1 +
              (R.2.1.inflight_requests - (infl + 1)) := by
          rw [countRequests_append_request] at hcount
          exact hcount
        refine ⟨hb, hc, by omega, fun _ => hle hlt, by omega, fun hf => ?_⟩
        exact hexit (show 32 - (infl + 1) ≤ n by omega)
    · dsimp only
      refine ⟨rfl, rfl, Nat.le_refl _, fun h => h, by omega, fun _ => ?_⟩
      exact Or.inl (by omega)

/-- C8: after event processing, maybe_request never emits a Request while
the peer is choking us (the inflight count is untouched), and when
unchoked it loops the scheduler, sending one Request per iteration, until
the peer's inflight_requests reaches 32 (kMaxInflightRequestsPerPeer) or
the scheduler yields no eligible block; the property holds for every
scheduler, in particular the missing next_request_for_peer_rarest. -/
theorem c8_maybe_request_spec {σ : Type}
    (next : σ → List Nat → Option PieceManager.Request × σ)
    (pm : PieceManager) (s : σ) (st : SessPeerState)
    (h32 : st.inflight_requests ≤ 32) :
    (st.choked = true →
      countRequests (maybe_request next pm s st).2.2 = 0 ∧
      (maybe_request next pm s st).2.1.inflight_requests =
        st.inflight_requests) ∧
    (st.choked = false →
      ((maybe_request next pm s st).2.1.inflight_requests = 32 ∨
        ∃ s0, next s0 st.bitfield = (none, (maybe_request next pm s st).1)) ∧
      (maybe_request next pm s st).2.1.inflight_requests ≤ 32 ∧
      countRequests (maybe_request next pm s st).2.2 =
        (maybe_request next pm s st).2.1.inflight_requests -
          st.inflight_requests) := by
  obtain ⟨bf, ch, intr, infl⟩ := st
  dsimp only at h32 ⊢
  constructor
  · intro hch
    subst hch
    unfold maybe_request
    dsimp only
    split_ifs <;> simp_all [countRequests]
  · intro hch
    subst hch
    have key : ∀ (intr' : Bool) (msgs0 : List OutMsg), countRequests msgs0 = 0 →
        ((requestLoop next (32 - infl) s (SessPeerState.mk bf false intr' infl)
            msgs0).2.1.inflight_requests = 32 ∨
          ∃ s0, next s0 bf = (none, (requestLoop next (32 - infl) s
            (SessPeerState.mk bf false intr' infl) msgs0).1)) ∧
        (requestLoop next (32 - infl) s (SessPeerState.mk bf false intr' infl)
          msgs0).2.1.inflight_requests ≤ 32 ∧
        countRequests (requestLoop next (32 - infl) s
            (SessPeerState.mk bf false intr' infl) msgs0).2.2 =
          (requestLoop next (32 - infl) s (SessPeerState.mk bf false intr' infl)
            msgs0).2.1.inflight_requests - infl := by
      intro intr' msgs0 hm0
      have h := requestLoop_spec next (32 - infl) s
        (SessPeerState.mk bf false intr' infl) msgs0
      have hc : countRequests (requestLoop next (32 - infl) s
          (SessPeerState.mk bf false intr' infl) msgs0).2.2 =
          countRequests msgs0 + ((requestLoop next (32 - infl) s
            (SessPeerState.mk bf false intr' infl)
            msgs0).2.1.inflight_requests - infl) := h.2.2.2.2.1
      refine ⟨?_, h.2.2.2.1 h32, ?_⟩
      · rcases h.2.2.2.2.2 (Nat.le_refl _) with hx | hx
        · exact Or.inl (Nat.le_antisymm (h.2.2.2.1 h32) hx)
        · exact Or.inr hx
      · rw [hc, hm0]
        omega
    unfold maybe_request
    dsimp only
    rcases h1 : (peer_has_interesting pm (SessPeerState.mk bf false intr infl)
        && !intr) with _ | _
    · rcases h2 : (!peer_has_interesting pm
          (SessPeerState.mk bf false intr infl) && intr) with _ | _
      · simp only [h1, h2, Bool.false_eq_true, if_false, ite_false]
        exact key intr [] rfl
      · simp only [h1, h2, Bool.false_eq_true, if_false, ite_false,
          if_true, ite_true]
        exact key false [OutMsg.notInterested] rfl
    · simp only [h1, if_true, ite_true]
      exact key true [OutMsg.interested] rfl

theorem c8_witness :
    spUnchoked.inflight_requests ≤ 32 ∧
    (spUnchoked.choked = false →
      ((maybe_request PieceManager.next_request_for_peer pmS2 pmS2
          spUnchoked).2.1.inflight_requests = 32 ∨
        ∃ s0, PieceManager.next_request_for_peer s0 spUnchoked.bitfield =
          (none, (maybe_request PieceManager.next_request_for_peer pmS2 pmS2
            spUnchoked).1)) ∧
      (maybe_request PieceManager.next_request_for_peer pmS2 pmS2
        spUnchoked).2.1.inflight_requests ≤ 32 ∧
      countRequests (maybe_request PieceManager.next_request_for_peer pmS2
          pmS2 spUnchoked).2.2 =
        (maybe_request PieceManager.next_request_for_peer pmS2 pmS2
          spUnchoked).2.1.inflight_requests - spUnchoked.inflight_requests) :=
  ⟨by decide,
   (c8_maybe_request_spec PieceManager.next_request_for_peer pmS2 pmS2
     spUnchoked (by decide)).2⟩

/-! ## C9: candidate-queue deduplication and PEX ingestion -/

set_option maxRecDepth 8192 in
/-- C9: enqueue_peer_candidate is a no-op for a known ip:port key and
preserves the queue invariant (no two pending entries share a key), so the
candidate queue never holds duplicates; concretely, a ut_pex payload with
three fresh endpoints pushes exactly three candidates and the identical
payload replayed pushes none. -/
theorem c9_candidate_dedup :
    (∀ (st : SessionSt) (a : PeerAddress),
      st.known_endpoints_.contains (endpointKey a) = true →
      enqueue_peer_candidate st a = (false, st)) ∧
    (∀ (st : SessionSt) (a : PeerAddress),
      SessionSt.Inv st → SessionSt.Inv (enqueue_peer_candidate st a).2) ∧
    ((handle_pex sess0 pexPayload).pending_peers_.length = 3 ∧
     SessionSt.Inv (handle_pex sess0 pexPayload) ∧
     (handle_pex (handle_pex sess0 pexPayload) pexPayload).pending_peers_ =
       (handle_pex sess0 pexPayload).pending_peers_ ∧
     (handle_pex (handle_pex sess0 pexPayload) pexPayload).known_endpoints_ =
       (handle_pex sess0 pexPayload).known_endpoints_) := by
  refine ⟨?_, ?_, by decide⟩
  · intro st a h
    have hmem : endpointKey a ∈ st.known_endpoints_ := by simpa using h
    simp [enqueue_peer_candidate, h, hmem]
  · intro st a hInv
    unfold enqueue_peer_candidate
    by_cases hc : st.known_endpoints_.contains (endpointKey a) = true
    · rw [if_pos hc]
      exact hInv
    · rw [if_neg hc]
      have hnotin : endpointKey a ∉ st.known_endpoints_ := by
        intro hmem
        exact hc (by simpa using hmem)
      refine ⟨?_, ?_⟩
      · rw [List.map_append]
        rw [List.nodup_append]
        refine ⟨hInv.1, List.nodup_singleton _, ?_⟩
        intro k hk1 hk2
        simp only [List.map_cons, List.map_nil, List.mem_singleton] at hk2
        subst hk2
        obtain ⟨p, hp, hpk⟩ := List.mem_map.mp hk1
        exact hnotin (hpk ▸ hInv.2 p hp)
      · intro p hp
        rcases List.mem_append.mp hp with hp1 | hp2
        · exact List.mem_append.mpr (Or.inl (hInv.2 p hp1))
        · simp only [List.mem_singleton] at hp2
          subst hp2
          exact List.mem_append.mpr (Or.inr (by simp))

theorem c9_witness :
    ((sess1.known_endpoints_.contains (endpointKey pa1) = true ∧
      enqueue_peer_candidate sess1 pa1 = (false, sess1)) ∧
     (SessionSt.Inv sess1 ∧ SessionSt.Inv (enqueue_peer_candidate sess1 pa2).2)) :=
  ⟨⟨by decide, c9_candidate_dedup.1 sess1 pa1 (by decide)⟩,
   ⟨by decide, c9_candidate_dedup.2.1 sess1 pa2 (by decide)⟩⟩

/-! ## C5: read_block slices the span list and concatenates the reads -/

theorem sliceSpans_spanOK (fs : FS) :
    ∀ (spans : List SpanT) (skip rem : Nat),
      (∀ s ∈ spans, spanOK fs s) →
      ∀ s ∈ Storage.sliceSpans spans skip rem, spanOK fs s := by
  intro spans
  induction spans with
  | nil => intro skip rem _ s hs; simp [Storage.sliceSpans] at hs
  | cons span rest ih =>
    intro skip rem hok s hs
    unfold Storage.sliceSpans at hs
    split_ifs at hs with h0 hskip
    · simp at hs
    · exact ih (skip - span.length) rem (fun x hx => hok x (by simp [hx])) s hs
    · rcases List.mem_cons.mp hs with hhead | htail
      · subst hhead
        have hsp := hok span (by simp)
        obtain ⟨hoff, hbound⟩ := hsp
        have hskip' : skip < span.length := Nat.lt_of_not_le hskip
        constructor
        · simp only
          omega
        · simp only
          have htoNat : (span.offset + (skip : Int)).toNat =
              span.offset.toNat + skip := by omega
          rw [htoNat]
          have hmin : min rem (span.length - skip) ≤ span.length - skip :=
            Nat.min_le_right _ _
          omega
      · exact ih 0 (rem - min rem (span.length - skip))
          (fun x hx => hok x (by simp [hx])) s htail

theorem readSpanBytes_ok (fs : FS) :
    ∀ spans : List SpanT, (∀ s ∈ spans, spanOK fs s) →
      Storage.readSpanBytes fs spans = some (readSpans fs spans) := by
  intro spans
  induction spans with
  | nil => intro _; rfl
  | cons span rest ih =>
    intro hok
    have hsp := hok span (by simp)
    obtain ⟨hoff, hbound⟩ := hsp
    unfold Storage.readSpanBytes
    rw [show preadFS fs span.fd span.offset span.length =
        some (((fs.getD span.fd []).drop span.offset.toNat).take span.length) by
      unfold preadFS
      rw [if_neg (by omega), if_pos hbound]]
    rw [ih (fun x hx => hok x (by simp [hx]))]
    rfl

theorem readSpanBytes_short (fs : FS) :
    ∀ spans : List SpanT, (∃ s ∈ spans, ¬ spanOK fs s) →
      Storage.readSpanBytes fs spans = none := by
  intro spans
  induction spans with
  | nil => rintro ⟨s, hs, -⟩; simp at hs
  | cons span rest ih =>
    rintro ⟨s, hs, hbad⟩
    unfold Storage.readSpanBytes
    rcases List.mem_cons.mp hs with hhead | htail
    · subst hhead
      have hpr : preadFS fs s.fd s.offset s.length = none := by
        unfold preadFS
        unfold spanOK at hbad
        push_neg at hbad
        split_ifs with hneg hbd
        · rfl
        · exact absurd hbd (Nat.not_le.mpr (hbad (not_lt.mp hneg)))
        · rfl
      rw [hpr]
    · rw [ih ⟨s, htail, hbad⟩]
      rcases preadFS fs span.fd span.offset span.length with _ | b
      · rfl
      · rfl

theorem readSpans_length (fs : FS) :
    ∀ spans : List SpanT, (∀ s ∈ spans, spanOK fs s) →
      (readSpans fs spans).length = (spans.map SpanT.length).sum := by
  intro spans
  induction spans with
  | nil => intro _; rfl
  | cons span rest ih =>
    intro hok
    have hsp := hok span (by simp)
    obtain ⟨-, hbound⟩ := hsp
    have h1 : (((fs.getD span.fd []).drop span.offset.toNat).take
        span.length).length = span.length := by
      rw [List.length_take, List.length_drop]
      omega
    have h2 := ih fun x hx => hok x (by simp [hx])
    unfold readSpans
    simp only [List.length_append, List.map_cons, List.sum_cons]
    omega

theorem sliceSpans_sum :
    ∀ (spans : List SpanT) (skip rem : Nat),
      skip + rem ≤ (spans.map SpanT.length).sum →
      ((Storage.sliceSpans spans skip rem).map SpanT.length).sum = rem := by
  intro spans
  induction spans with
  | nil =>
    intro skip rem h
    simp only [List.map_nil, List.sum_nil] at h
    simp only [Storage.sliceSpans, List.map_nil, List.sum_nil]
    omega
  | cons span rest ih =>
    intro skip rem h
    simp only [List.map_cons, List.sum_cons] at h
    unfold Storage.sliceSpans
    split_ifs with h0 hskip
    · simp only [List.map_nil, List.sum_nil]
      exact (beq_iff_eq.mp h0).symm
    · exact ih (skip - span.length) rem (by omega)
    · simp only [List.map_cons, List.sum_cons]
      rw [ih 0 (rem - min rem (span.length - skip)) (by omega)]
      have hskip' : skip < span.length := Nat.lt_of_not_le hskip
      omega

set_option maxRecDepth 8192 in
/-- C5 (amended): for every in-range (piece_index, begin, length) with
length at least 1 (read_block rejects a zero-length read), read_block
returns exactly the bytes obtained by slicing the piece's span list to the
sub-range and concatenating one positional read per sub-span; it fails
when the coordinates exceed the piece's logical length or any read is
short.  Scenario S1 is the third conjunct: files a:100 and b:200 with
piece_length 128, read_block(0, 96, 16) = a[96..100] ++ b[0..12]. -/
theorem c5_read_block_spec (st : Storage) (fs : FS) (i begin_ len : Nat) :
    (PieceManager.piece_length_for st.torrent_ i < begin_ + len →
      st.read_block fs i begin_ len = none) ∧
    (i < st.piece_spans_.length → 1 ≤ len →
      begin_ + len ≤ PieceManager.piece_length_for st.torrent_ i →
      begin_ + len ≤ ((st.piece_spans_.getD i []).map SpanT.length).sum →
      (((∀ s ∈ st.piece_spans_.getD i [], spanOK fs s) →
        st.read_block fs i begin_ len =
          some (readSpans fs (st.spans_for i begin_ len)) ∧
        (readSpans fs (st.spans_for i begin_ len)).length = len) ∧
       ((∃ s ∈ st.spans_for i begin_ len, ¬ spanOK fs s) →
        st.read_block fs i begin_ len = none))) ∧
    (stS1.read_block fsS1 0 96 16 =
      some ((aS1.drop 96).take 4 ++ (bS1.drop 0).take 12)) := by
  refine ⟨?_, ?_, by decide⟩
  · intro hgt
    unfold Storage.read_block
    by_cases hsp : st.piece_spans_.length ≤ i
    · rw [if_pos hsp]
    · rw [if_neg hsp]
      by_cases hlen0 : (len == 0) = true
      · rw [if_pos hlen0]
      · rw [if_neg hlen0, if_pos hgt]
  · intro hi hlen hle hsum
    have hne : ¬ st.piece_spans_.length ≤ i := Nat.not_le.mpr hi
    have hlen0 : ¬ (len == 0) = true := by simp; omega
    have hpl : ¬ PieceManager.piece_length_for st.torrent_ i < begin_ + len := by
      omega
    have hspans : st.spans_for i begin_ len =
        Storage.sliceSpans (st.piece_spans_.getD i []) begin_ len := by
      unfold Storage.spans_for
      rw [if_neg hne]
    constructor
    · intro hok
      have hOK2 := sliceSpans_spanOK fs (st.piece_spans_.getD i [])
        begin_ len hok
      have hread := readSpanBytes_ok fs _ hOK2
      have hL : (readSpans fs (Storage.sliceSpans (st.piece_spans_.getD i [])
          begin_ len)).length = len := by
        rw [readSpans_length fs _ hOK2, sliceSpans_sum _ _ _ hsum]
      refine ⟨?_, by rw [hspans]; exact hL⟩
      unfold Storage.read_block
      rw [if_neg hne, if_neg hlen0, if_neg hpl, hspans, hread]
      dsimp only
      rw [hL, Nat.sub_self, List.replicate_zero, List.append_nil]
    · intro hbad
      rw [hspans] at hbad
      have hread := readSpanBytes_short fs _ hbad
      unfold Storage.read_block
      rw [if_neg hne, if_neg hlen0, if_neg hpl, hspans, hread]

set_option maxRecDepth 8192 in
theorem c5_witness :
    (0 < stS1.piece_spans_.length ∧ 1 ≤ 16 ∧
     96 + 16 ≤ PieceManager.piece_length_for stS1.torrent_ 0 ∧
     96 + 16 ≤ ((stS1.piece_spans_.getD 0 []).map SpanT.length).sum ∧
     (∀ s ∈ stS1.piece_spans_.getD 0 [], spanOK fsS1 s)) ∧
    (stS1.read_block fsS1 0 96 16 =
      some (readSpans fsS1 (stS1.spans_for 0 96 16)) ∧
     (readSpans fsS1 (stS1.spans_for 0 96 16)).length = 16) :=
  ⟨⟨by decide, by decide, by decide, by decide, by decide⟩,
   ((c5_read_block_spec stS1 fsS1 0 96 16).2.1 (by decide) (by decide)
     (by decide) (by decide)).1 (by decide)⟩

/-! ## C1 (amended): the real handle_block rejection condition -/

/-- C1 (amended): for every well-formed manager, handle_block returns
false exactly when the piece index is out of range, or the piece is
already Have, or begin + len(data) exceeds the piece's length, or the
payload is empty, or its length is neither the expected block length for
the block index begin / block_size nor lands exactly on the piece end, or
that block's received bit is already set, or the block completes the piece
but the assembled buffer fails the SHA-1 check.  Alignment of `begin` to
the block size is never checked (see the counterexample). -/
theorem c1_handle_block_reject_iff (pm : PieceManager) (i begin_ : Nat)
    (data : List Nat) (hWF : pm.WF) :
    (pm.handle_block i begin_ data).1 = false ↔
      (pm.pieces_.length ≤ i ∨
       pm.have_piece i = true ∨
       PieceManager.piece_length_for pm.torrent_ i < begin_ + data.length ∨
       data.length = 0 ∨
       (data.length ≠ expected_block_len
          (PieceManager.piece_length_for pm.torrent_ i) pm.block_size_
          (begin_ / pm.block_size_) ∧
        begin_ + data.length ≠ PieceManager.piece_length_for pm.torrent_ i) ∨
       (pm.bufferOf i).bitmap_.test (begin_ / pm.block_size_) = true ∨
       (((pm.bufferOf i).write_block begin_ data).1.2 = true ∧
        sha1 ((pm.bufferOf i).write_block begin_ data).2.data_ ≠
          pm.torrent_.piece_hashes.getD i [])) := by
  obtain ⟨hB, hcount, hbufs⟩ := hWF
  by_cases hout : pm.pieces_.length ≤ i
  · unfold PieceManager.handle_block
    rw [if_pos hout]
    exact iff_of_true rfl (Or.inl hout)
  · by_cases hhv : pm.have_piece i = true
    · unfold PieceManager.handle_block
      rw [if_neg hout, if_pos hhv]
      exact iff_of_true rfl (Or.inr (Or.inl hhv))
    · have hi : i < pm.pieces_.length := Nat.lt_of_not_le hout
      have hbw : bufWF pm i (pm.bufferOf i) = true := by
        rcases hob : (pm.pieces_.getD i default).buffer with _ | bb
        · unfold PieceManager.bufferOf
          rw [hob]
          simp [bufWF, PieceBuffer.init, BlockBitmap.init]
        · have h2 := hbufs i hi
          rw [hob] at h2
          unfold PieceManager.bufferOf
          rw [hob]
          exact h2
      simp only [bufWF, Bool.and_eq_true, beq_iff_eq] at hbw
      obtain ⟨⟨⟨⟨hpl, hbs⟩, hdl⟩, hblocks⟩, htot⟩ := hbw
      have hiff := write_block_false_iff (pm.bufferOf i) begin_ data
      rw [hpl, hbs, hblocks] at hiff
      unfold PieceManager.handle_block
      rw [if_neg hout, if_neg hhv]
      dsimp only
      rw [show (pm.pieces_.getD i default).buffer.getD
          (PieceBuffer.init (PieceManager.piece_length_for pm.torrent_ i)
            pm.block_size_) = pm.bufferOf i from rfl]
      rcases hres : (pm.bufferOf i).write_block begin_ data with ⟨⟨acc, comp⟩, buf'⟩
      rw [hres] at hiff
      dsimp only at hiff ⊢
      have hiff2 : acc = false ↔
          (PieceManager.piece_length_for pm.torrent_ i <
            begin_ + data.length ∨ data.length = 0 ∨
            (data.length ≠ expected_block_len
              (PieceManager.piece_length_for pm.torrent_ i) pm.block_size_
              (begin_ / pm.block_size_) ∧
             begin_ + data.length ≠
              PieceManager.piece_length_for pm.torrent_ i) ∨
            (pm.bufferOf i).bitmap_.test (begin_ / pm.block_size_) = true) := by
        unfold expected_block_len
        exact hiff
      cases acc with
      | false =>
        refine iff_of_true rfl ?_
        rcases hiff2.mp rfl with h | h | h | h
        · exact .inr <| .inr <| .inl h
        · exact .inr <| .inr <| .inr <| .inl h
        · exact .inr <| .inr <| .inr <| .inr <| .inl h
        · exact .inr <| .inr <| .inr <| .inr <| .inr <| .inl h
      | true =>
        have hnd' : ¬ (PieceManager.piece_length_for pm.torrent_ i <
              begin_ + data.length ∨ data.length = 0 ∨
              (data.length ≠ expected_block_len
                (PieceManager.piece_length_for pm.torrent_ i) pm.block_size_
                (begin_ / pm.block_size_) ∧
               begin_ + data.length ≠
                PieceManager.piece_length_for pm.torrent_ i) ∨
              (pm.bufferOf i).bitmap_.test (begin_ / pm.block_size_) = true) := by
          intro hsome
          exact absurd (hiff2.mpr hsome) (by simp)
        cases comp with
        | false =>
          refine iff_of_false (by simp) ?_
          rintro (h | h | h | h | h | h | ⟨hc, -⟩)
          · exact hout h
          · exact hhv h
          · exact hnd' (Or.inl h)
          · exact hnd' (Or.inr (Or.inl h))
          · exact hnd' (Or.inr (Or.inr (Or.inl h)))
          · exact hnd' (Or.inr (Or.inr (Or.inr h)))
          · cases hc
        | true =>
          by_cases hsha : (sha1 buf'.data_ ==
              pm.torrent_.piece_hashes.getD i []) = true
          · rw [if_pos hsha]
            refine iff_of_false (by simp) ?_
            rintro (h | h | h | h | h | h | ⟨-, hne⟩)
            · exact hout h
            · exact hhv h
            · exact hnd' (Or.inl h)
            · exact hnd' (Or.inr (Or.inl h))
            · exact hnd' (Or.inr (Or.inr (Or.inl h)))
            · exact hnd' (Or.inr (Or.inr (Or.inr h)))
            · exact hne (beq_iff_eq.mp hsha)
          · rw [if_neg hsha]
            refine iff_of_true rfl ?_
            exact Or.inr (Or.inr (Or.inr (Or.inr (Or.inr (Or.inr
              ⟨rfl, fun he => hsha (beq_iff_eq.mpr he)⟩)))))

set_option maxRecDepth 8192 in
theorem c1_witness :
    pm32.WF ∧ (pm32.handle_block 0 0 [0]).1 = false :=
  ⟨by decide, (c1_handle_block_reject_iff pm32 0 0 [0] (by decide)).mpr
    (Or.inr (Or.inr (Or.inr (Or.inr (Or.inl ⟨by decide, by decide⟩)))))⟩

/-! ## C2 (amended): the scan is round-robin from the cursor, not
rarest-first -/

set_option maxRecDepth 8192 in
/-- C2 (amended): next_request_for_peer scans pieces in round-robin order
starting at next_piece_cursor_ — availability plays no role — and the
request it returns is for the first eligible piece in that order.  In the
claim's scenario (peer A holding pieces 0 and 1, cursor at 0) the first
request for A is a block of piece 0, which also holds under rarest-first
only because round-robin happens to agree there; the counterexample shows
the orders diverging. -/
theorem c2_round_robin_first_eligible (pm : PieceManager) (bf : List Nat)
    (r : PieceManager.Request) (pmF : PieceManager)
    (h : pm.next_request_for_peer bf = (some r, pmF)) :
    ((List.range pm.pieces_.length).map fun o =>
        (pm.next_piece_cursor_ + o) % pm.pieces_.length).find?
      (eligibleB pm bf) = some r.piece_index ∧
    (pmS2.next_request_for_peer bfA).1 = some ⟨0, 0, 16⟩ ∧
    peerAvailability [bfA, bfB2] 1 < peerAvailability [bfA, bfB2] 0 := by
  refine ⟨?_, by decide, by decide⟩
  have h1 : (PieceManager.nextReqLoop pm bf
      (List.range pm.pieces_.length)).1 = some r := by
    unfold PieceManager.next_request_for_peer at h
    rw [h]
  exact nextReqLoop_find pm bf (List.range pm.pieces_.length) pm
    (skeletonEq_refl pm) r h1

set_option maxRecDepth 8192 in
theorem c2_witness :
    ((List.range pmS2.pieces_.length).map fun o =>
        (pmS2.next_piece_cursor_ + o) % pmS2.pieces_.length).find?
      (eligibleB pmS2 bfA) = some 0 ∧
    (pmS2.next_request_for_peer bfA).1 = some ⟨0, 0, 16⟩ ∧
    peerAvailability [bfA, bfB2] 1 < peerAvailability [bfA, bfB2] 0 :=
  c2_round_robin_first_eligible pmS2 bfA ⟨0, 0, 16⟩
    (pmS2.next_request_for_peer bfA).2
    (by
      have h1 : (pmS2.next_request_for_peer bfA).1 = some ⟨0, 0, 16⟩ := by decide
      rw [← h1])

end DJT
